import Mathlib

/-!
# AutoBook leveling engine — verification development

Shallow embedding of the leveling-survey calculator: the row reduction
engine (`processRows`), the change-point editor (`addChangePoint`,
`deleteChangePoint`), the chainage generator (`parseChainage`,
`formatChainage`, `generateChainagePoints`, `generateTableRows`) and the
pattern re-application handler (`handleApplyPattern`).

Numbers are modelled as rationals (the source works with JS doubles, all
values of interest are small decimals, and the arithmetic used is only
addition and subtraction, exact in both systems).  Optional numeric fields
(`number | undefined | null` in the source, always guarded by checks that
treat `undefined` and `null` alike) are modelled as `Option ℚ`.  JS truthy
checks such as `if (!hoc)` are modelled bit-for-bit: they reject both the
missing value and the value `0`.  `Date.now()` is modelled as an explicit
`now : Nat` clock argument wherever the source uses it to mint an id.
-/

namespace AutoBook

/-- `chainageType` classification, from `'CL' | 'RD' | 'LHS' | 'RHS'`. -/
inductive ChainType where
  | CL
  | RD
  | LHS
  | RHS
deriving DecidableEq, Repr

/-- `interface Benchmark { name: string; rl: number }`. -/
structure Benchmark where
  name : String
  rl : ℚ
deriving DecidableEq, Repr

/-- `interface Row` from `lib/types`: one table line.  Optional numbers are
`Option ℚ`; the optional booleans `isCP`/`isClosingBM` are `Bool` with
default `false` (an absent JS field is falsy exactly like `false`). -/
structure Row where
  id : String
  chainage : String
  chainageType : Option ChainType := none
  bs : Option ℚ := none
  is : Option ℚ := none
  fs : Option ℚ := none
  hoc : Option ℚ := none
  rl : Option ℚ := none
  d : Option ℚ := none
  diff : Option ℚ := none
  isCP : Bool := false
  cpLabel : Option String := none
  cpRL : Option ℚ := none
  cpHOC : Option ℚ := none
  isClosingBM : Bool := false
  closingBMName : Option String := none
  closingBMValue : Option ℚ := none
deriving DecidableEq, Repr

/-- `calculateRL(row, hoc)`:
```js
if (!hoc) return undefined;
if (row.is !== undefined && row.is !== null) return hoc - row.is;
if (row.fs !== undefined && row.fs !== null) return hoc - row.fs;
return undefined;
```
Note `!hoc` is truthiness: it rejects `undefined` AND the number `0`. -/
def calculateRL (row : Row) (hoc : Option ℚ) : Option ℚ :=
  match hoc with
  | none => none
  | some h =>
    if h = 0 then none
    else
      match row.is with
      | some i => some (h - i)
      | none =>
        match row.fs with
        | some f => some (h - f)
        | none => none

/-- `calculateDiff(row)`: `d - rl` when both are present, else undefined. -/
def calculateDiff (row : Row) : Option ℚ :=
  match row.d, row.rl with
  | some dv, some rlv => some (dv - rlv)
  | _, _ => none

/-- The two mutable locals of `processRows`: `currentHOC` and `currentBM`
(`number | null` in the source). -/
structure RState where
  currentHOC : Option ℚ
  currentBM : Option ℚ
deriving DecidableEq, Repr

/-- The closing-benchmark branch of the `processRows` callback:
```js
const newRow = { ...row };
if (index > 0 && currentHOC !== null) {
  if (row.fs !== undefined && row.fs !== null) {
    newRow.rl = currentHOC - row.fs;
    if (row.closingBMValue !== undefined) {
      newRow.d = row.closingBMValue;
      newRow.diff = newRow.d - (newRow.rl || 0);
    }
  }
}
return newRow;
```
(`newRow.rl || 0` equals `newRow.rl` numerically: it is `0` exactly when
`newRow.rl` is `0`, so it is written as the value itself.)  The state is
returned untouched. -/
def processClosingRow (s : RState) (index : Nat) (row : Row) : Row :=
  if index > 0 then
    match s.currentHOC, row.fs with
    | some hoc, some f =>
      let rlv := hoc - f
      match row.closingBMValue with
      | some v => { row with rl := some rlv, d := some v, diff := some (v - rlv) }
      | none => { row with rl := some rlv }
    | _, _ => row
  else row

/-- The change-point branch of the `processRows` callback:
```js
const newRow = { ...row };
if (row.cpRL !== undefined) newRow.rl = row.cpRL;
if (row.cpRL !== undefined) currentBM = row.cpRL;
if (row.cpHOC !== undefined) currentHOC = row.cpHOC;
return newRow;
``` -/
def processCPRow (s : RState) (row : Row) : Row × RState :=
  let newRow := match row.cpRL with
    | some v => { row with rl := some v }
    | none => row
  let s1 := match row.cpRL with
    | some v => { s with currentBM := some v }
    | none => s
  let s2 := match row.cpHOC with
    | some v => { s1 with currentHOC := some v }
    | none => s1
  (newRow, s2)

/-- The HOC block of the ordinary-row branch:
```js
if (row.bs !== undefined && row.bs !== null) {
  if (currentBM !== null) { newRow.hoc = currentBM + row.bs; currentHOC = newRow.hoc; }
  else if (currentHOC !== null) { newRow.hoc = currentHOC; }
} else if (currentHOC !== null) { newRow.hoc = currentHOC; }
```
Only the first branch (`bs` present and a benchmark value available)
advances `currentHOC`. -/
def hocUpdate (s : RState) (row : Row) : Row × RState :=
  match row.bs with
  | some b =>
    match s.currentBM with
    | some bm =>
      ({ row with hoc := some (bm + b) }, { s with currentHOC := some (bm + b) })
    | none =>
      match s.currentHOC with
      | some h => ({ row with hoc := some h }, s)
      | none => (row, s)
  | none =>
    match s.currentHOC with
    | some h => ({ row with hoc := some h }, s)
    | none => (row, s)

/-- `if (newRow.hoc !== undefined) { const rl = calculateRL(newRow,
newRow.hoc); if (rl !== undefined) newRow.rl = rl; }` -/
def assignRL (row : Row) : Row :=
  match row.hoc with
  | some _ =>
    match calculateRL row row.hoc with
    | some rlv => { row with rl := some rlv }
    | none => row
  | none => row

/-- `if (newRow.rl !== undefined) { const diff = calculateDiff(newRow);
if (diff !== undefined) newRow.diff = diff; }` -/
def assignDiff (row : Row) : Row :=
  match row.rl with
  | some _ =>
    match calculateDiff row with
    | some dv => { row with diff := some dv }
    | none => row
  | none => row

/-- The ordinary-row branch of the `processRows` callback: compute `hoc`
(from `currentBM + bs`, else carry `currentHOC` forward), then `rl`, then
`diff`. -/
def processOrdinaryRow (s : RState) (row : Row) : Row × RState :=
  (assignDiff (assignRL (hocUpdate s row).1), (hocUpdate s row).2)

/-- One step of the `rows.map` callback of `processRows`: dispatch on
`isClosingBM`, then `isCP`, else ordinary. -/
def processStep (s : RState) (index : Nat) (row : Row) : Row × RState :=
  if row.isClosingBM then (processClosingRow s index row, s)
  else if row.isCP then processCPRow s row
  else processOrdinaryRow s row

/-- The left-to-right traversal of `processRows` (JS `rows.map` over the two
closed-over mutable locals), carrying the running index. -/
def processRowsGo (s : RState) (index : Nat) : List Row → List Row
  | [] => []
  | row :: rest =>
    let step := processStep s index row
    step.1 :: processRowsGo step.2 (index + 1) rest

/-- The fold state threaded by `processRows` over a list of rows (the step
ignores the index for the purpose of the state: the closing branch never
writes the state, and the other branches never read the index). -/
def stateAfter (s : RState) : List Row → RState
  | [] => s
  | row :: rest => stateAfter (processStep s 0 row).2 rest

/-- The initial state of `processRows`: `currentHOC = null`,
`currentBM = benchmark ? benchmark.rl : null`. -/
def initState (benchmark : Option Benchmark) : RState :=
  { currentHOC := none, currentBM := benchmark.map Benchmark.rl }

/-- `processRows(rows, benchmark)`: reduce every row left to right. -/
def processRows (rows : List Row) (benchmark : Option Benchmark) : List Row :=
  processRowsGo (initState benchmark) 0 rows

/-! ## String helpers

Core `String` functions are built on byte positions and do not reduce in the
kernel, so the JS string operations used by the source are modelled directly
on the character list (`String.mk` / `String.toList`). -/

/-- The decimal digit character of `d < 10` (JS number-to-string digits). -/
def digitChar (d : Nat) : Char := Char.ofNat (48 + d)

/-- Big-endian decimal digits of a natural number, as JS `String(n)` renders
a non-negative integer (`0` renders as `"0"`). -/
def natDigits (n : Nat) : List Char :=
  if _h : n < 10 then [digitChar n]
  else natDigits (n / 10) ++ [digitChar (n % 10)]
decreasing_by exact Nat.div_lt_self (by omega) (by omega)

/-- JS `String(n)` for a natural number. -/
def natToString (n : Nat) : String := String.mk (natDigits n)

/-- JS `String(i)` for an integer (decimal, `-` sign for negatives). -/
def intToString (i : ℤ) : String :=
  if i < 0 then String.mk ('-' :: natDigits i.natAbs) else natToString i.toNat

/-- JS `s.padStart(n, c)`. -/
def padStart (s : String) (n : Nat) (c : Char) : String :=
  if n ≤ s.length then s
  else String.mk (List.replicate (n - s.length) c ++ s.toList)

/-- Whether `pat` occurs as a contiguous run inside `l` (JS
`String.prototype.includes` on the character list). -/
def listHasSub (pat : List Char) : List Char → Bool
  | [] => pat.isEmpty
  | c :: t => pat.isPrefixOf (c :: t) || listHasSub pat t

/-- JS `s.includes(pat)`. -/
def hasSubstr (s pat : String) : Bool := listHasSub pat.toList s.toList

/-! ## Change-point editor -/

/-- `addChangePoint(rows, fsRowIndex, newBS, label?, benchmark?)`.  The source
mints the pushed row's id with `Date.now()`; the clock is the explicit `now`
argument here.  Guards in order, as in the source:
```js
const processedRows = processRows(rows, benchmark);
const fsRow = processedRows[fsRowIndex];
if (!fsRow || fsRow.fs === undefined || fsRow.fs === null) return rows;
const oldHOC = fsRow.hoc;
if (!oldHOC || oldHOC === null || oldHOC === undefined) return rows;
```
`!oldHOC` is truthiness: an `hoc` of exactly `0` also takes this early
return.  On success the target row is rewritten in place (new `bs`, CP info,
chainage showing the CP label, `fs` kept) and the pushed point row is
spliced in right after it. -/
def addChangePoint (rows : List Row) (fsRowIndex : Nat) (newBS : ℚ)
    (label : Option String) (benchmark : Option Benchmark) (now : Nat) : List Row :=
  let processedRows := processRows rows benchmark
  match processedRows[fsRowIndex]? with
  | none => rows
  | some fsRow =>
    match fsRow.fs with
    | none => rows
    | some f =>
      match fsRow.hoc with
      | none => rows
      | some oldHOC =>
        if oldHOC = 0 then rows
        else
          match rows[fsRowIndex]? with
          | none => rows
          | some originalRow =>
            let cpRL := oldHOC - f
            let newHOC := oldHOC - f + newBS
            let existingCPs := (rows.filter (fun r => r.isCP)).length
            let cpNumber := existingCPs + 1
            let cpLabel := label.getD ("CP" ++ padStart (natToString cpNumber) 2 '0')
            let updatedFsRow : Row := { originalRow with bs := some newBS, chainage := "" }
            let pointRow : Row := { originalRow with
              id := "row-" ++ natToString now ++ "-pushed",
              bs := some newBS,
              fs := none,
              is := none,
              hoc := none,
              rl := none,
              diff := none }
            let updatedFsRowWithCP : Row := { updatedFsRow with
              isCP := true,
              cpLabel := some cpLabel,
              cpRL := some cpRL,
              cpHOC := some newHOC,
              chainage := cpLabel }
            rows.take fsRowIndex ++ updatedFsRowWithCP :: pointRow :: rows.drop (fsRowIndex + 1)

/-- `deleteChangePoint(rows, cpRowIndex)`.  No-op unless the addressed row
has `isCP`.  If the addressed row is the last row (`cpRowIndex + 1 >=
rows.length`) the input is returned unchanged.  Otherwise, if the following
row's id does not contain `'-pushed'`, only the CP row is rewritten (CP info
removed, `bs` cleared, chainage blanked); if it does, the CP row is restored
with the pushed row's chainage (`pushedPointRow.chainage || ''` equals that
chainage value, the empty string being its own fallback) and the pushed row
is removed. -/
def deleteChangePoint (rows : List Row) (cpRowIndex : Nat) : List Row :=
  match rows[cpRowIndex]? with
  | none => rows
  | some cpRow =>
    if !cpRow.isCP then rows
    else
      let pushedPointRowIndex := cpRowIndex + 1
      if pushedPointRowIndex ≥ rows.length then rows
      else
        match rows[pushedPointRowIndex]? with
        | none => rows
        | some pushedPointRow =>
          if !hasSubstr pushedPointRow.id "-pushed" then
            let restoredFsRow : Row := { cpRow with
              bs := none, isCP := false, cpLabel := none,
              cpRL := none, cpHOC := none, chainage := "" }
            rows.set cpRowIndex restoredFsRow
          else
            let restoredFsRow : Row := { cpRow with
              bs := none, isCP := false, cpLabel := none,
              cpRL := none, cpHOC := none, chainage := pushedPointRow.chainage }
            (rows.set cpRowIndex restoredFsRow).eraseIdx pushedPointRowIndex

/-! ## Chainage generator (`lib/chainage.ts`)

Chainage distances are integers throughout the application (`parseChainage`
returns `km * 1000 + m` from `parseInt` results, and the interval reaches
the generator through `parseInt`), so distances and the interval are
modelled as `ℤ`; point offsets (`±3.5`) are `ℚ`. -/

/-- The whitespace JS `parseInt` skips (the forms that occur here). -/
def isSpaceChar (c : Char) : Bool := c = ' ' || c = '\t' || c = '\n' || c = '\r'

/-- Value of a big-endian run of decimal digit characters. -/
def decDigitsVal (cs : List Char) : Nat := cs.foldl (fun a c => 10 * a + (c.toNat - 48)) 0

def isHexDigitChar (c : Char) : Bool :=
  c.isDigit || ('a' ≤ c && c ≤ 'f') || ('A' ≤ c && c ≤ 'F')

def hexVal (c : Char) : Nat :=
  if c.isDigit then c.toNat - 48 else if 'a' ≤ c then c.toNat - 87 else c.toNat - 55

def hexDigitsVal (cs : List Char) : Nat := cs.foldl (fun a c => 16 * a + hexVal c) 0

/-- JS `parseInt(s)` (no radix argument): skip whitespace, read an optional
sign, auto-detect a `0x`/`0X` hexadecimal prefix (only possible with no
sign or a `+`/`-` sign before it, and only read when hex digits follow),
else take the longest decimal-digit prefix; `none` models `NaN`.  The
sign and prefix dispatch is phrased on `head?` so that each condition is a
plain equation. -/
def jsParseIntList (cs0 : List Char) : Option ℤ :=
  let cs := cs0.dropWhile isSpaceChar
  let sign : ℤ := if cs.head? = some '-' then -1 else 1
  let body := if cs.head? = some '-' ∨ cs.head? = some '+' then cs.tail else cs
  if body.head? = some '0' ∧ (body.tail.head? = some 'x' ∨ body.tail.head? = some 'X') then
    let ds := body.tail.tail.takeWhile isHexDigitChar
    if ds.isEmpty then none else some (sign * hexDigitsVal ds)
  else
    let ds := body.takeWhile Char.isDigit
    if ds.isEmpty then none else some (sign * decDigitsVal ds)

def jsParseInt (s : String) : Option ℤ := jsParseIntList s.toList

/-- JS `s.split(sep)` for a one-character separator. -/
def splitOnChar (sep : Char) : List Char → List (List Char)
  | [] => [[]]
  | c :: cs =>
    if c = sep then [] :: splitOnChar sep cs
    else
      match splitOnChar sep cs with
      | [] => [[c]]
      | l :: ls => (c :: l) :: ls

/-- `parseChainage(chainage)`:
```js
const parts = chainage.split('+');
if (parts.length !== 2) return 0;
const km = parseInt(parts[0]) || 0;
const m = parseInt(parts[1]) || 0;
return km * 1000 + m;
```
(`x || 0` is `0` when `parseInt` gave `NaN`, and otherwise the value itself
— a parsed `0` is falsy but `0 || 0` is again `0`.) -/
def parseChainage (s : String) : ℤ :=
  match splitOnChar '+' s.toList with
  | [p0, p1] =>
    (jsParseIntList p0).getD 0 * 1000 + (jsParseIntList p1).getD 0
  | _ => 0

/-- `formatChainage(meters)`: `Math.floor(meters / 1000)` is flooring
division, JS `%` is the truncating remainder. -/
def formatChainage (meters : ℤ) : String :=
  let km := Int.fdiv meters 1000
  let m := Int.tmod meters 1000
  intToString km ++ "+" ++ padStart (intToString m) 3 '0'

/-- Fractional decimal digits of `num / den` (with `num < den`), at most
`fuel` of them, stopping when the remainder is exhausted. -/
def fracDigits (num den : Nat) : Nat → List Char
  | 0 => []
  | fuel + 1 =>
    if num = 0 then []
    else digitChar (num * 10 / den) :: fracDigits (num * 10 % den) den fuel

/-- JS number-to-string for the rationals this model produces (terminating
decimals such as `3.5`; integers print with no fractional part). -/
def ratToString (q : ℚ) : String :=
  let sign : String := if q.num < 0 then "-" else ""
  let na := q.num.natAbs
  let ip := na / q.den
  let fr := na % q.den
  if fr = 0 then sign ++ natToString ip
  else sign ++ natToString ip ++ "." ++ String.mk (fracDigits fr q.den 20)

/-- `interface ChainagePoint` from `lib/types`. -/
structure ChainagePoint where
  chainage : String
  offset : ℚ
  displayName : String
  chainageType : Option ChainType := none
deriving DecidableEq, Repr

/-- The successive values of the loop variable `m` of
`for (let m = fromM; m <= toM; m += interval)`, as a function of the
iteration count. -/
def loopIter (fromM interval : ℤ) (k : Nat) : ℤ := fromM + k * interval

/-- The source's generation loop never exits: every iterate of its loop
variable satisfies the guard `m <= toM`.  `generateChainagePoints` diverges
exactly when this holds, i.e. when `interval ≤ 0` and `fromM ≤ toM`. -/
def loopDiverges (fromM toM interval : ℤ) : Prop :=
  ∀ k : Nat, loopIter fromM interval k ≤ toM

/-- The body of `for (let m = fromM; m <= toM; m += interval)`, collecting
the loop variable's values.  Total only for a positive interval, which the
`hpos` argument records; for `interval ≤ 0` the source loop either runs no
iteration (`fromM > toM`) or never terminates (`loopDiverges`). -/
def loopGo (toM interval : ℤ) (hpos : 0 < interval) (m : ℤ) : List ℤ :=
  if _h : m ≤ toM then m :: loopGo toM interval hpos (m + interval) else []
termination_by (toM + 1 - m).toNat
decreasing_by omega

/-- The station distances `generateChainagePoints` iterates over.  For
`interval ≤ 0` the list is `[]` exactly when the source loop runs no
iteration (`fromM > toM`); in the remaining case the source diverges and
the model's `[]` stands in for a value the source never produces. -/
def stationList (fromM toM interval : ℤ) : List ℤ :=
  if h : 0 < interval then loopGo toM interval h fromM else []

/-- JS `s.trim()`. -/
def jsTrim (s : String) : String :=
  String.mk (((s.toList.dropWhile isSpaceChar).reverse.dropWhile isSpaceChar).reverse)

/-- ASCII uppercase of one character (all labels handled here are ASCII). -/
def upChar (c : Char) : Char :=
  if 'a' ≤ c ∧ c ≤ 'z' then Char.ofNat (c.toNat - 32) else c

/-- JS `s.toUpperCase()` on ASCII text. -/
def jsToUpper (s : String) : String := String.mk (s.toList.map upChar)

def strStartsWith (s p : String) : Bool := p.toList.isPrefixOf s.toList

def strEndsWith (s p : String) : Bool := p.toList.isSuffixOf s.toList

/-- One emitted point of the pattern branch of `generateChainagePoints`:
trim the raw label, classify it case-insensitively (`CL` exact or `" CL"`
suffix; `RD` prefix; `LHS`/`RHS` substring), offset fixed at 0. -/
def patternPoint (chainageStr : String) (rawLabel : String) : ChainagePoint :=
  let label := jsTrim rawLabel
  let upper := jsToUpper label
  let isCL := upper = "CL" || strEndsWith upper " CL"
  let isRD := strStartsWith upper "RD"
  let isLHS := hasSubstr upper "LHS"
  let isRHS := hasSubstr upper "RHS"
  { chainage := chainageStr,
    offset := 0,
    displayName := if isCL then chainageStr ++ " CL" else label,
    chainageType :=
      if isCL then some ChainType.CL
      else if isRD then some ChainType.RD
      else if isLHS then some ChainType.LHS
      else if isRHS then some ChainType.RHS
      else none }

/-- The no-pattern branches of `generateChainagePoints`: one centreline
point, the fixed three-point layout, or evenly spaced offsets across
`[-offset, offset]`. -/
def defaultPoints (chainageStr : String) (pointsPerChainage : ℤ) (offset : ℚ) :
    List ChainagePoint :=
  if pointsPerChainage = 1 then
    [{ chainage := chainageStr, offset := 0, displayName := chainageStr }]
  else if pointsPerChainage = 3 then
    [{ chainage := chainageStr, offset := -offset,
       displayName := ratToString offset ++ " LHS", chainageType := some ChainType.LHS },
     { chainage := chainageStr, offset := 0,
       displayName := chainageStr ++ " CL", chainageType := some ChainType.CL },
     { chainage := chainageStr, offset := offset,
       displayName := ratToString offset ++ " RHS", chainageType := some ChainType.RHS }]
  else
    let spacing : ℚ := offset * 2 / ((pointsPerChainage : ℚ) - 1)
    (List.range pointsPerChainage.toNat).map (fun i =>
      let pointOffset : ℚ := -offset + (i : ℚ) * spacing
      { chainage := chainageStr, offset := pointOffset,
        displayName := if pointOffset = 0 then chainageStr else ratToString |pointOffset| })

/-- `generateChainagePoints(fromChainage, toChainage, pointsPerChainage,
interval, pointPattern?)`. -/
def generateChainagePoints (fromChainage toChainage : String)
    (pointsPerChainage : ℤ) (interval : ℤ) (pointPattern : Option (List String)) :
    List ChainagePoint :=
  let fromM := parseChainage fromChainage
  let toM := parseChainage toChainage
  let offset : ℚ := if pointsPerChainage > 1 then 3.5 else 0
  (stationList fromM toM interval).flatMap (fun m =>
    let chainageStr := formatChainage m
    match pointPattern with
    | some pat =>
      if pat.length > 0 then pat.map (patternPoint chainageStr)
      else defaultPoints chainageStr pointsPerChainage offset
    | none => defaultPoints chainageStr pointsPerChainage offset)

/-! ## Projects, table generation and pattern re-application -/

/-- `interface Project` (persistence-only fields `createdAt`/`updatedAt`
are owned by the excluded store and omitted). -/
structure Project where
  id : String
  title : String
  layer : String
  fromChainage : String
  toChainage : String
  chainageInterval : ℤ
  pointsPerChainage : ℤ
  pointPattern : Option (List String) := none
  date : String
  benchmark : Option Benchmark := none
  rows : List Row
deriving DecidableEq, Repr

/-- `generateTableRows(project)`: a fresh benchmark row, then one blank row
per generated chainage point.  Ids are minted from `Date.now()`, modelled
by `now`. -/
def generateTableRows (project : Project) (now : Nat) : List Row :=
  let points := generateChainagePoints project.fromChainage project.toChainage
    project.pointsPerChainage project.chainageInterval project.pointPattern
  let bmRow : Row := { id := "row-bm-" ++ natToString now, chainage := "" }
  let chainageRows := points.enum.map (fun p =>
    ({ id := "row-" ++ natToString now ++ "-" ++ natToString p.1,
       chainage := p.2.displayName,
       chainageType := p.2.chainageType } : Row))
  bmRow :: chainageRows

/-- The pattern-text parsing of `handleApplyPattern`:
`patternText.split(',').map(p => p.trim()).filter(p => p.length > 0)`. -/
def parsePatternText (patternText : String) : List String :=
  ((splitOnChar ',' patternText.toList).map (fun l => jsTrim (String.mk l))).filter
    (fun p => p.length > 0)

/-- The stateful `existingMiddle.map` of `handleApplyPattern` with its
`pointIndex` cursor: a CP row is returned as is and consumes no generated
point; an ordinary row takes the next point's label and type, or is
returned as is when the points are exhausted.  Returns the rewritten rows
and the unconsumed points. -/
def relabelRows : List Row → List Row → List Row × List Row
  | [], pts => ([], pts)
  | r :: rs, pts =>
    if r.isCP then
      let res := relabelRows rs pts
      (r :: res.1, res.2)
    else
      match pts with
      | [] =>
        let res := relabelRows rs []
        (r :: res.1, res.2)
      | p :: ptl =>
        let res := relabelRows rs ptl
        ({ r with chainage := p.chainage, chainageType := p.chainageType } :: res.1, res.2)

/-- The number of generated points `relabelRows` consumes from a middle-row
prefix: one per non-CP row (CP rows are skipped without consuming). -/
def countNonCP (l : List Row) : Nat := (l.filter (fun r => !r.isCP)).length

/-- An appended row of `handleApplyPattern`: only `id`, `chainage` and
`chainageType` are taken from the generated row, every reading and derived
field is absent. -/
def blankRowOf (p : Row) : Row :=
  { id := p.id, chainage := p.chainage, chainageType := p.chainageType }

/-- A row value for the unreachable `existingRows[0] || regenerated[0]`
fallback when both lists are empty (`regenerated` never is). -/
def defaultRow : Row := { id := "", chainage := "" }

/-- `handleApplyPattern` from the project page, as a pure function of the
project, the pattern text and the clock: parse the pattern (no-op when
empty), regenerate the station rows, keep row 0, hold the closing row
aside, relabel the middle rows, append rows for surplus stations, and
reattach the closing row last. -/
def handleApplyPattern (project : Project) (patternText : String) (now : Nat) :
    Project :=
  let parsed := parsePatternText patternText
  if parsed.length = 0 then project
  else
    let regenerated := generateTableRows { project with pointPattern := some parsed } now
    let existingRows := project.rows
    let bmRow := (existingRows[0]?).getD (regenerated.headD defaultRow)
    let closingRow := existingRows.find? (fun r => r.isClosingBM)
    let existingMiddle := (existingRows.drop 1).filter (fun r => !r.isClosingBM)
    let newPointRows := regenerated.drop 1
    let res := relabelRows existingMiddle newPointRows
    let appended := res.2.map blankRowOf
    let baseRows := bmRow :: res.1 ++ appended
    let newRows :=
      match closingRow with
      | some c => (baseRows.filter (fun r => !r.isClosingBM)) ++ [c]
      | none => baseRows
    { project with pointPattern := some parsed, rows := newRows }

/-! ## Example data

The worked examples of the specification (benchmark RL 100.000 with
readings 1.500 / 1.000 / 2.000) and the zero-HOC inputs: a benchmark RL of
−1.500 against a backsight of 1.500 puts the height of collimation at
exactly 0. -/

def bmSpec : Benchmark := { name := "BM", rl := 100 }

def rowsSpec : List Row :=
  [{ id := "r0", chainage := "", bs := some (3/2) },
   { id := "r1", chainage := "0+000 CL", is := some 1 },
   { id := "r2", chainage := "0+020 CL", fs := some 2 }]

def bmNeg : Benchmark := { name := "BM", rl := -(3/2) }

def rowsZeroHOC : List Row :=
  [{ id := "r0", chainage := "", bs := some (3/2) },
   { id := "r1", chainage := "A", is := some 1 }]

def rowsZeroHOCfs : List Row :=
  [{ id := "r0", chainage := "", bs := some (3/2) },
   { id := "r1", chainage := "A", fs := some 1 }]

def bmTen : Benchmark := { name := "BM", rl := 10 }

def rowsBSZero : List Row := [{ id := "r0", chainage := "", bs := some 0 }]

/-- Closed-traverse example: benchmark 99.500, backsight 1.200 (so the
running HOC is 100.700), then a closing-benchmark row with foresight 0.800
and known closing value 99.900. -/
def bmClose : Benchmark := { name := "BM", rl := 199/2 }

def closPre : List Row := [{ id := "c0", chainage := "", bs := some (6/5) }]

def closingRowEx : Row :=
  { id := "c1", chainage := "", isClosingBM := true, fs := some (4/5),
    closingBMValue := some (999/10) }

/-- A sequence whose head is already a change-point row carrying a stored
(zero) HOC: its foresight is set and its reduced `hoc` is the defined value
0, yet `addChangePoint` refuses it and `deleteChangePoint` then mangles
it. -/
def rowsDirty : List Row :=
  [{ id := "a", chainage := "PT", fs := some 1, hoc := some 0, isCP := true },
   { id := "b", chainage := "X" }]

/-- A change-point row that is the last row of its sequence. -/
def rowsCPLast : List Row :=
  [{ id := "a", chainage := "CP01", bs := some 1, isCP := true,
     cpLabel := some "CP01", cpRL := some 5, cpHOC := some 6 }]

/-- A change-point row followed by its synthetic pushed companion. -/
def cpRowEx : Row :=
  { id := "p0", chainage := "CP01", bs := some 1, fs := some 2, isCP := true,
    cpLabel := some "CP01", cpRL := some 5, cpHOC := some 6 }

def pushedRowEx : Row := { id := "row-9-pushed", chainage := "0+040 CL" }

def rows2CP : List Row := [cpRowEx, pushedRowEx]

/-- A populated example project for the pattern re-application: benchmark
row, an ordinary row with readings, a change-point row, a second ordinary
row, and a closing-benchmark row. -/
def projEx : Project :=
  { id := "p", title := "t", layer := "l",
    fromChainage := "0+000", toChainage := "0+020",
    chainageInterval := 20, pointsPerChainage := 1,
    pointPattern := some ["CL"], date := "d",
    benchmark := some bmSpec,
    rows := [ { id := "e0", chainage := "", bs := some 1 },
              { id := "e1", chainage := "OLD1", is := some 2, d := some 3 },
              { id := "e2", chainage := "CP01", isCP := true, bs := some 1, fs := some 2 },
              { id := "e3", chainage := "OLD2", fs := some 4 },
              { id := "e4", chainage := "", isClosingBM := true, fs := some 1 } ] }

end AutoBook

namespace AutoBook

/-! ## General lemmas about the reduction pass -/

theorem processStep_state_index_free (s : RState) (i : Nat) (row : Row) :
    (processStep s i row).2 = (processStep s 0 row).2 := by
  unfold processStep
  by_cases hc : row.isClosingBM <;> simp [hc]

theorem processClosingRow_fs (s : RState) (i : Nat) (row : Row) :
    (processClosingRow s i row).fs = row.fs := by
  unfold processClosingRow
  repeat' split
  all_goals rfl

theorem processCPRow_fs (s : RState) (row : Row) :
    (processCPRow s row).1.fs = row.fs := by
  unfold processCPRow
  repeat' split
  all_goals rfl

theorem hocUpdate_fs (s : RState) (row : Row) : (hocUpdate s row).1.fs = row.fs := by
  unfold hocUpdate
  repeat' split
  all_goals rfl

theorem assignRL_fs (row : Row) : (assignRL row).fs = row.fs := by
  unfold assignRL
  repeat' split
  all_goals rfl

theorem assignDiff_fs (row : Row) : (assignDiff row).fs = row.fs := by
  unfold assignDiff
  repeat' split
  all_goals rfl

theorem processOrdinaryRow_fs (s : RState) (row : Row) :
    (processOrdinaryRow s row).1.fs = row.fs := by
  unfold processOrdinaryRow
  simp [assignDiff_fs, assignRL_fs, hocUpdate_fs]

theorem processStep_fs (s : RState) (i : Nat) (row : Row) :
    (processStep s i row).1.fs = row.fs := by
  unfold processStep
  by_cases hc : row.isClosingBM <;> by_cases hp : row.isCP <;>
    simp [hc, hp, processClosingRow_fs, processCPRow_fs, processOrdinaryRow_fs]

theorem processRowsGo_length (s : RState) (i : Nat) (rows : List Row) :
    (processRowsGo s i rows).length = rows.length := by
  induction rows generalizing s i with
  | nil => rfl
  | cons r rest ih => simp [processRowsGo, ih]

theorem processRowsGo_append (s : RState) (i : Nat) (xs ys : List Row) :
    processRowsGo s i (xs ++ ys)
      = processRowsGo s i xs ++ processRowsGo (stateAfter s xs) (i + xs.length) ys := by
  induction xs generalizing s i with
  | nil => simp [processRowsGo, stateAfter]
  | cons r rest ih =>
    simp only [List.cons_append, processRowsGo, stateAfter, List.length_cons, List.append_eq]
    rw [ih, processStep_state_index_free s i r]
    have harith : i + 1 + rest.length = i + (rest.length + 1) := by omega
    rw [harith]

theorem processRowsGo_getQ (s : RState) (i : Nat) (rows : List Row) (k : Nat) :
    (processRowsGo s i rows)[k]?
      = (rows[k]?).map (fun r => (processStep (stateAfter s (rows.take k)) (i + k) r).1) := by
  induction rows generalizing s i k with
  | nil => simp [processRowsGo]
  | cons r rest ih =>
    cases k with
    | zero => simp [processRowsGo, stateAfter]
    | succ k =>
      simp only [processRowsGo, List.getElem?_cons_succ, List.take_succ_cons, stateAfter, ih]
      rw [processStep_state_index_free s i r]
      have : i + (k + 1) = i + 1 + k := by omega
      rw [this]

theorem processRows_getQ (rows : List Row) (bm : Option Benchmark) (k : Nat) :
    (processRows rows bm)[k]?
      = (rows[k]?).map
          (fun r => (processStep (stateAfter (initState bm) (rows.take k)) k r).1) := by
  have := processRowsGo_getQ (initState bm) 0 rows k
  simpa [processRows] using this

theorem processRows_length (rows : List Row) (bm : Option Benchmark) :
    (processRows rows bm).length = rows.length := by
  simp [processRows, processRowsGo_length]

theorem processRows_fs (rows : List Row) (bm : Option Benchmark) (k : Nat) :
    ((processRows rows bm)[k]?).map Row.fs = (rows[k]?).map Row.fs := by
  rw [processRows_getQ]
  cases rows[k]? with
  | none => rfl
  | some r => simp [processStep_fs]

/-! ## C1 -/

/-- C1: the reduction fold computes HOC exactly as claimed, but the claimed
RL rule "if hoc is defined, rl = hoc − is" fails when the defined HOC is
exactly 0: on the specification's own example the fold produces
hoc 101.5 / rl 100.5 / rl 99.5, while with benchmark RL −1.5 and bs 1.5
row 1 gets the defined hoc 0 carried forward and — its intermediate sight
1 notwithstanding — no rl at all (`calculateRL`'s `if (!hoc)` treats the
number 0 as missing). -/
theorem processRows_zero_hoc_drops_rl :
    ((processRows rowsSpec (some bmSpec)).map Row.hoc
        = [some (203/2), some (203/2), some (203/2)]
      ∧ (processRows rowsSpec (some bmSpec)).map Row.rl
        = [none, some (201/2), some (199/2)])
    ∧ (rowsZeroHOC.map Row.is = [none, some 1]
      ∧ (processRows rowsZeroHOC (some bmNeg)).map Row.hoc = [some 0, some 0]
      ∧ (processRows rowsZeroHOC (some bmNeg)).map Row.rl = [none, none]) := by
  refine ⟨⟨?_, ?_⟩, ?_, ?_, ?_⟩ <;>
    simp [processRows, processRowsGo, processStep, processOrdinaryRow, hocUpdate,
      assignRL, assignDiff, calculateRL, calculateDiff, initState,
      rowsSpec, bmSpec, rowsZeroHOC, bmNeg] <;>
    try norm_num

/-! ## C2 -/

/-- C2: presence checks versus the value 0, evaluated on the code.  A
backsight of exactly 0 against benchmark RL 10.000 does yield hoc = 10.000
(the `processRows` guard is `!== undefined && !== null`), but a carried HOC
of exactly 0 produces no rl (`calculateRL`'s `if (!hoc)`), and
`addChangePoint` treats an old HOC of exactly 0 as a missing precondition
(`if (!oldHOC)`), returning its input unchanged. -/
theorem zero_presence_checks_evaluated :
    ((processRows rowsBSZero (some bmTen)).map Row.hoc = [some 10])
    ∧ (calculateRL { id := "x", chainage := "", is := some 1 } (some 0) = none)
    ∧ ((processRows rowsZeroHOCfs (some bmNeg)).map Row.hoc = [some 0, some 0]
      ∧ rowsZeroHOCfs.map Row.fs = [none, some 1]
      ∧ addChangePoint rowsZeroHOCfs 1 2 none (some bmNeg) 0 = rowsZeroHOCfs) := by
  refine ⟨?_, ?_, ?_, ?_, ?_⟩ <;>
    simp [processRows, processRowsGo, processStep, processOrdinaryRow, hocUpdate,
      assignRL, assignDiff, calculateRL, calculateDiff, initState, addChangePoint,
      rowsBSZero, bmTen, rowsZeroHOCfs, bmNeg]

/-! ## C3 -/

/-- C3: `addChangePoint` evaluated on both sides of its precondition.  On
the specification's example (benchmark 100.000, readings 1.5/1.0/2.0,
new backsight 1.2) it rewrites row 2 in place — bs 1.2, isCP, chainage
showing the default label CP01, fs kept at 2.0, cpRL 99.5 = oldHOC − fs and
cpHOC 100.7 = cpRL + newBS — and is one row longer.  But with a reduced HOC
of exactly 0 at the target row (benchmark −1.5, bs 1.5, fs 1 set) it
returns the input unchanged, although the claim requires a rewrite whenever
the reduced hoc is defined. -/
theorem addChangePoint_zero_hoc_noop :
    (((addChangePoint rowsSpec 2 (6/5) none (some bmSpec) 7).length = 4)
      ∧ ((addChangePoint rowsSpec 2 (6/5) none (some bmSpec) 7)[2]?
          = some { id := "r2", chainage := "CP01", bs := some (6/5), fs := some 2,
                   isCP := true, cpLabel := some "CP01", cpRL := some (199/2),
                   cpHOC := some (1007/10) }))
    ∧ ((processRows rowsZeroHOCfs (some bmNeg)).map Row.hoc = [some 0, some 0]
      ∧ rowsZeroHOCfs.map Row.fs = [none, some 1]
      ∧ addChangePoint rowsZeroHOCfs 1 2 none (some bmNeg) 0 = rowsZeroHOCfs) := by
  refine ⟨⟨?_, ?_⟩, ?_, ?_, ?_⟩ <;>
    simp [addChangePoint, processRows, processRowsGo, processStep, processOrdinaryRow,
      hocUpdate, assignRL, assignDiff, calculateRL, calculateDiff, initState,
      rowsSpec, bmSpec, rowsZeroHOCfs, bmNeg,
      natToString, natDigits, digitChar, padStart, String.length] <;>
    try norm_num

end AutoBook

namespace AutoBook

/-! ## C5 -/

theorem stateAfter_append (s : RState) (xs ys : List Row) :
    stateAfter s (xs ++ ys) = stateAfter (stateAfter s xs) ys := by
  induction xs generalizing s with
  | nil => rfl
  | cons r rest ih => simp [stateAfter, ih]

/-- C5: a closing-benchmark row reached with a running HOC and a present
foresight gets `rl = currentHOC - fs`; when `closingBMValue` is present it
also gets `d = closingBMValue` and `diff = d - rl`; and the fold state is
not advanced past the closing row.  (In particular, with fs 0.800 against
currentHOC 100.700 and closing value 99.900 this gives rl 99.900 and
diff 0.000 — see the witness.) -/
theorem processRows_closing_row_spec (bm : Option Benchmark)
    (pre suffixRows : List Row) (row : Row) (h f : ℚ)
    (hclose : row.isClosingBM = true)
    (hhoc : (stateAfter (initState bm) pre).currentHOC = some h)
    (hfs : row.fs = some f) :
    ∃ r', (processRows (pre ++ row :: suffixRows) bm)[pre.length]? = some r'
      ∧ r'.rl = some (h - f)
      ∧ (∀ v, row.closingBMValue = some v → r'.d = some v ∧ r'.diff = some (v - (h - f)))
      ∧ stateAfter (initState bm) (pre ++ [row]) = stateAfter (initState bm) pre := by
  have hpre : pre ≠ [] := by
    intro hnil
    rw [hnil] at hhoc
    simp [stateAfter, initState] at hhoc
  have hpos : 0 < pre.length := List.length_pos.mpr hpre
  have hget : (pre ++ row :: suffixRows)[pre.length]? = some row := by
    rw [List.getElem?_append_right (Nat.le_refl pre.length)]
    simp
  have htake : (pre ++ row :: suffixRows).take pre.length = pre := List.take_left pre _
  refine ⟨(processStep (stateAfter (initState bm) pre) pre.length row).1, ?_, ?_, ?_, ?_⟩
  · rw [processRows_getQ, hget, htake]
    rfl
  · simp only [processStep, hclose, if_true]
    unfold processClosingRow
    rw [if_pos hpos, hhoc, hfs]
    cases row.closingBMValue <;> simp
  · intro v hv
    simp only [processStep, hclose, if_true]
    unfold processClosingRow
    rw [if_pos hpos, hhoc, hfs, hv]
    simp
  · rw [stateAfter_append]
    simp [stateAfter, processStep, hclose]

/-- C5 witness: the closed traverse of the specification, benchmark 99.500
and backsight 1.200 giving currentHOC 100.700, closing foresight 0.800 and
closing value 99.900; the second conjunct evaluates the reduced table:
rl = 99.900 and diff = 0 on the closing row. -/
theorem processRows_closing_row_check :
    (∃ r', (processRows (closPre ++ closingRowEx :: []) (some bmClose))[closPre.length]?
        = some r'
      ∧ r'.rl = some (1007/10 - 4/5)
      ∧ (∀ v, closingRowEx.closingBMValue = some v →
          r'.d = some v ∧ r'.diff = some (v - (1007/10 - 4/5)))
      ∧ stateAfter (initState (some bmClose)) (closPre ++ [closingRowEx])
          = stateAfter (initState (some bmClose)) closPre)
    ∧ (processRows (closPre ++ [closingRowEx]) (some bmClose)).map Row.rl
        = [none, some (999/10)]
    ∧ (processRows (closPre ++ [closingRowEx]) (some bmClose)).map Row.diff
        = [none, some 0] := by
  refine ⟨processRows_closing_row_spec (some bmClose) closPre [] closingRowEx
      (1007/10) (4/5) rfl ?_ rfl, ?_, ?_⟩
  · simp [stateAfter, processStep, processOrdinaryRow, hocUpdate, initState,
      closPre, bmClose]
    norm_num
  · simp [processRows, processRowsGo, processStep, processOrdinaryRow, hocUpdate,
      assignRL, assignDiff, calculateRL, calculateDiff, processClosingRow,
      initState, closPre, closingRowEx, bmClose]
    norm_num
  · simp [processRows, processRowsGo, processStep, processOrdinaryRow, hocUpdate,
      assignRL, assignDiff, calculateRL, calculateDiff, processClosingRow,
      initState, closPre, closingRowEx, bmClose]
    norm_num

end AutoBook

namespace AutoBook

/-! ## Shared lemmas for the change-point editor -/

theorem setMid {α : Type} (xs ys : List α) (a b : α) :
    (xs ++ a :: ys).set xs.length b = xs ++ b :: ys := by
  induction xs with
  | nil => rfl
  | cons x xt ih => simp [List.set, ih]

theorem eraseMid {α : Type} (xs ys : List α) (a : α) :
    (xs ++ a :: ys).eraseIdx xs.length = xs ++ ys := by
  induction xs with
  | nil => rfl
  | cons x xt ih => simp [List.eraseIdx, ih]

theorem getMid {α : Type} (xs ys : List α) (a : α) :
    (xs ++ a :: ys)[xs.length]? = some a := by
  rw [List.getElem?_append_right (Nat.le_refl xs.length)]
  simp

theorem listHasSub_suffix (xs pat : List Char) :
    listHasSub pat (xs ++ pat) = true := by
  induction xs with
  | nil =>
    cases pat with
    | nil => rfl
    | cons c t =>
      simp only [List.nil_append, listHasSub, Bool.or_eq_true]
      left
      rw [List.isPrefixOf_iff_prefix]
  | cons x xt ih =>
    simp only [List.cons_append, listHasSub, Bool.or_eq_true]
    right
    exact ih

/-- The success case of `addChangePoint`, as one equation: when the
processed row at the target index has a foresight and a nonzero defined
HOC, the result rewrites the target row in place (new backsight, CP data,
CP label shown as chainage, foresight kept) and splices the pushed point
row in directly after it. -/
theorem addChangePoint_eq (rows : List Row) (i : Nat) (b : ℚ)
    (label : Option String) (bm : Option Benchmark) (now : Nat)
    (pr r : Row) (h f : ℚ)
    (hp : (processRows rows bm)[i]? = some pr)
    (hfs : pr.fs = some f)
    (hhoc : pr.hoc = some h)
    (hnz : h ≠ 0)
    (hr : rows[i]? = some r) :
    addChangePoint rows i b label bm now
      = rows.take i
        ++ ({ r with
              bs := some b,
              chainage := label.getD
                ("CP" ++ padStart (natToString ((rows.filter (fun row => row.isCP)).length + 1)) 2 '0'),
              isCP := true,
              cpLabel := some (label.getD
                ("CP" ++ padStart (natToString ((rows.filter (fun row => row.isCP)).length + 1)) 2 '0')),
              cpRL := some (h - f),
              cpHOC := some (h - f + b) } : Row)
        :: ({ r with
              id := "row-" ++ natToString now ++ "-pushed",
              bs := some b,
              fs := none,
              is := none,
              hoc := none,
              rl := none,
              diff := none } : Row)
        :: rows.drop (i + 1) := by
  simp only [addChangePoint, hp, hfs, hhoc, hr, if_neg hnz]

/-! ## C4 -/

/-- C4 counterexample: on the specification's end-to-end example the
synthetic pushed row (index 3) does NOT have all readings cleared — its
`bs` is set to the new backsight 1.2 (the source writes `bs: newBS` into
the pushed row). -/
theorem addChangePoint_pushed_row_keeps_bs :
    ((addChangePoint rowsSpec 2 (6/5) none (some bmSpec) 7).length = 4)
    ∧ ((addChangePoint rowsSpec 2 (6/5) none (some bmSpec) 7)[3]?).map Row.bs
        = some (some (6/5)) := by
  constructor <;>
    simp [addChangePoint, processRows, processRowsGo, processStep, processOrdinaryRow,
      hocUpdate, assignRL, assignDiff, calculateRL, calculateDiff, initState,
      rowsSpec, bmSpec] <;>
    norm_num

/-- C4 (amended): when `addChangePoint` succeeds, the result is one row
longer, and the synthetic row inserted right after the change-point row
carries the original station's chainage label and station type with `is`,
`fs` and the derived fields `hoc`, `rl`, `diff` cleared — while `bs` is set
to the new backsight, not cleared. -/
theorem addChangePoint_pushed_row_spec (rows : List Row) (i : Nat) (b : ℚ)
    (label : Option String) (bm : Option Benchmark) (now : Nat)
    (pr r : Row) (h f : ℚ)
    (hp : (processRows rows bm)[i]? = some pr)
    (hfs : pr.fs = some f)
    (hhoc : pr.hoc = some h)
    (hnz : h ≠ 0)
    (hr : rows[i]? = some r) :
    (addChangePoint rows i b label bm now).length = rows.length + 1
    ∧ ∃ p, (addChangePoint rows i b label bm now)[i + 1]? = some p
        ∧ p.chainage = r.chainage
        ∧ p.chainageType = r.chainageType
        ∧ p.bs = some b
        ∧ p.is = none ∧ p.fs = none
        ∧ p.hoc = none ∧ p.rl = none ∧ p.diff = none := by
  have hi : i < rows.length := by
    have hlp : i < (processRows rows bm).length := (List.getElem?_eq_some.mp hp).1
    rwa [processRows_length] at hlp
  have htk : (rows.take i).length = i := by
    simp [List.length_take, Nat.min_eq_left (Nat.le_of_lt hi)]
  rw [addChangePoint_eq rows i b label bm now pr r h f hp hfs hhoc hnz hr]
  constructor
  · simp only [List.length_append, List.length_cons, htk, List.length_drop]
    omega
  · refine ⟨{ r with
        id := "row-" ++ natToString now ++ "-pushed", bs := some b,
        fs := none, is := none, hoc := none, rl := none, diff := none },
      ?_, rfl, rfl, rfl, rfl, rfl, rfl, rfl, rfl⟩
    have hge : (rows.take i).length ≤ i + 1 := by omega
    rw [List.getElem?_append_right hge, htk]
    simp

/-- C4 witness: the amended statement applied at the specification's
example (benchmark 100.000, readings 1.5 / 1.0 / 2.0, change point on
row 2 with new backsight 1.2). -/
theorem addChangePoint_pushed_row_spec_check :
    (addChangePoint rowsSpec 2 (6/5) none (some bmSpec) 7).length = rowsSpec.length + 1
    ∧ ∃ p, (addChangePoint rowsSpec 2 (6/5) none (some bmSpec) 7)[2 + 1]? = some p
        ∧ p.chainage = ({ id := "r2", chainage := "0+020 CL", fs := some 2 } : Row).chainage
        ∧ p.chainageType = ({ id := "r2", chainage := "0+020 CL", fs := some 2 } : Row).chainageType
        ∧ p.bs = some (6/5)
        ∧ p.is = none ∧ p.fs = none
        ∧ p.hoc = none ∧ p.rl = none ∧ p.diff = none :=
  addChangePoint_pushed_row_spec rowsSpec 2 (6/5) none (some bmSpec) 7
    ({ id := "r2", chainage := "0+020 CL", fs := some 2, hoc := some (203/2),
       rl := some (199/2) } : Row)
    ({ id := "r2", chainage := "0+020 CL", fs := some 2 } : Row)
    (203/2) 2
    (by simp [processRows, processRowsGo, processStep, processOrdinaryRow, hocUpdate,
      assignRL, assignDiff, calculateRL, calculateDiff, initState, rowsSpec, bmSpec];
        norm_num)
    rfl rfl (by norm_num) rfl

end AutoBook

namespace AutoBook

/-! ## C6 -/

/-- The good path of `deleteChangePoint`: addressed at a CP row whose
successor carries a `-pushed` id, it restores the CP row (chainage from the
pushed row, `bs` and all CP fields cleared) and removes the pushed row. -/
theorem deleteChangePoint_push_shape (xs ys : List Row) (cp pushed : Row) (j : Nat)
    (hj : j = xs.length) (hcp : cp.isCP = true)
    (hid : hasSubstr pushed.id "-pushed" = true) :
    deleteChangePoint (xs ++ cp :: pushed :: ys) j
      = xs ++ ({ cp with
          bs := none, isCP := false, cpLabel := none,
          cpRL := none, cpHOC := none, chainage := pushed.chainage } : Row) :: ys := by
  subst hj
  have hlen : (xs ++ cp :: pushed :: ys).length = xs.length + 2 + ys.length := by
    simp
    omega
  have hget1 : (xs ++ cp :: pushed :: ys)[xs.length + 1]? = some pushed := by
    have hassoc : xs ++ cp :: pushed :: ys = (xs ++ [cp]) ++ pushed :: ys := by simp
    have hlen1 : (xs ++ [cp]).length = xs.length + 1 := by simp
    rw [hassoc, ← hlen1, getMid]
  have hset : (xs ++ cp :: pushed :: ys).set xs.length
      ({ cp with
          bs := none, isCP := false, cpLabel := none,
          cpRL := none, cpHOC := none, chainage := pushed.chainage } : Row)
      = xs ++ ({ cp with
          bs := none, isCP := false, cpLabel := none,
          cpRL := none, cpHOC := none, chainage := pushed.chainage } : Row)
        :: pushed :: ys := setMid xs (pushed :: ys) cp _
  have herase : (xs ++ ({ cp with
          bs := none, isCP := false, cpLabel := none,
          cpRL := none, cpHOC := none, chainage := pushed.chainage } : Row)
        :: pushed :: ys).eraseIdx (xs.length + 1)
      = xs ++ ({ cp with
          bs := none, isCP := false, cpLabel := none,
          cpRL := none, cpHOC := none, chainage := pushed.chainage } : Row) :: ys := by
    have hassoc : ∀ z : Row, xs ++ z :: pushed :: ys = (xs ++ [z]) ++ pushed :: ys := by
      intro z
      simp
    rw [hassoc]
    have hlen1 : (xs ++ [({ cp with
          bs := none, isCP := false, cpLabel := none,
          cpRL := none, cpHOC := none, chainage := pushed.chainage } : Row)]).length
        = xs.length + 1 := by simp
    rw [← hlen1, eraseMid]
    simp
  unfold deleteChangePoint
  rw [getMid]
  simp only [hcp, Bool.not_true, Bool.false_eq_true, if_false]
  rw [if_neg (show ¬ xs.length + 1 ≥ (xs ++ cp :: pushed :: ys).length from by
    rw [hlen]; omega)]
  rw [hget1]
  simp only [hid, Bool.not_true, Bool.false_eq_true, if_false]
  rw [hset, herase]

/-- C6 counterexample: a sequence whose head row has a set foresight and a
defined reduced HOC (the stored value 0), satisfying the claim's stated
preconditions, yet insert-then-delete does not restore it: the insertion
is refused (`!oldHOC`), and the deletion then blanks the chainage of the
already-CP head row, "PT" becoming "". -/
theorem insert_delete_not_inverse_at_zero_hoc :
    rowsDirty.map Row.fs = [some 1, none]
    ∧ (processRows rowsDirty none).map Row.hoc = [some 0, none]
    ∧ rowsDirty.map Row.chainage = ["PT", "X"]
    ∧ (deleteChangePoint (addChangePoint rowsDirty 0 1 none none 5) 0).length
        = rowsDirty.length
    ∧ (deleteChangePoint (addChangePoint rowsDirty 0 1 none none 5) 0).map Row.chainage
        = ["", "X"] := by
  refine ⟨?_, ?_, ?_, ?_, ?_⟩ <;>
    simp [rowsDirty, processRows, processRowsGo, processStep, processCPRow,
      processOrdinaryRow, hocUpdate, assignRL, assignDiff, calculateRL, calculateDiff,
      initState, addChangePoint, deleteChangePoint, hasSubstr, listHasSub] <;>
    decide

/-- C6 (amended): under the insertion preconditions strengthened by the
code's own zero check — the reduced HOC at the target row is defined AND
nonzero — removing a change point immediately after inserting it restores
the original row count, the target row's chainage, and leaves the target
row with all CP fields cleared. -/
theorem insert_delete_roundtrip (rows : List Row) (i : Nat) (b : ℚ)
    (label : Option String) (bm : Option Benchmark) (now : Nat)
    (pr r : Row) (h f : ℚ)
    (hp : (processRows rows bm)[i]? = some pr)
    (hfs : pr.fs = some f)
    (hhoc : pr.hoc = some h)
    (hnz : h ≠ 0)
    (hr : rows[i]? = some r) :
    (deleteChangePoint (addChangePoint rows i b label bm now) i).length = rows.length
    ∧ ((deleteChangePoint (addChangePoint rows i b label bm now) i)[i]?).map Row.chainage
        = some r.chainage
    ∧ ∃ r', (deleteChangePoint (addChangePoint rows i b label bm now) i)[i]? = some r'
        ∧ r'.isCP = false ∧ r'.cpLabel = none ∧ r'.cpRL = none ∧ r'.cpHOC = none := by
  have hi : i < rows.length := by
    have hlp : i < (processRows rows bm).length := (List.getElem?_eq_some.mp hp).1
    rwa [processRows_length] at hlp
  have htk : (rows.take i).length = i := by
    simp [List.length_take, Nat.min_eq_left (Nat.le_of_lt hi)]
  rw [addChangePoint_eq rows i b label bm now pr r h f hp hfs hhoc hnz hr]
  rw [deleteChangePoint_push_shape _ _ _ _ i htk.symm rfl (by
    show hasSubstr ("row-" ++ natToString now ++ "-pushed") "-pushed" = true
    show listHasSub ("-pushed".toList) (("row-" ++ natToString now ++ "-pushed").toList) = true
    have : ("row-" ++ natToString now ++ "-pushed").toList
        = ("row-" ++ natToString now).toList ++ "-pushed".toList := rfl
    rw [this, listHasSub_suffix])]
  have hget : (rows.take i ++ ({ r with
      bs := none, isCP := false, cpLabel := none, cpRL := none, cpHOC := none,
      chainage := r.chainage } : Row) :: rows.drop (i + 1))[i]?
      = some ({ r with
      bs := none, isCP := false, cpLabel := none, cpRL := none, cpHOC := none,
      chainage := r.chainage } : Row) := by
    have := getMid (rows.take i) (rows.drop (i + 1)) ({ r with
      bs := none, isCP := false, cpLabel := none, cpRL := none, cpHOC := none,
      chainage := r.chainage } : Row)
    rwa [htk] at this
  refine ⟨?_, ?_, ?_⟩
  · simp only [List.length_append, List.length_cons, htk, List.length_drop]
    omega
  · rw [hget]
    rfl
  · exact ⟨_, hget, rfl, rfl, rfl, rfl⟩

/-- C6 witness: insert-then-delete at the specification's example (change
point on row 2, new backsight 1.2) restores length 3, the chainage
"0+020 CL", and clears the CP fields. -/
theorem insert_delete_roundtrip_check :
    (deleteChangePoint (addChangePoint rowsSpec 2 (6/5) none (some bmSpec) 7) 2).length
        = rowsSpec.length
    ∧ ((deleteChangePoint (addChangePoint rowsSpec 2 (6/5) none (some bmSpec) 7) 2)[2]?).map
        Row.chainage
        = some ({ id := "r2", chainage := "0+020 CL", fs := some 2 } : Row).chainage
    ∧ ∃ r', (deleteChangePoint (addChangePoint rowsSpec 2 (6/5) none (some bmSpec) 7) 2)[2]?
          = some r'
        ∧ r'.isCP = false ∧ r'.cpLabel = none ∧ r'.cpRL = none ∧ r'.cpHOC = none :=
  insert_delete_roundtrip rowsSpec 2 (6/5) none (some bmSpec) 7
    ({ id := "r2", chainage := "0+020 CL", fs := some 2, hoc := some (203/2),
       rl := some (199/2) } : Row)
    ({ id := "r2", chainage := "0+020 CL", fs := some 2 } : Row)
    (203/2) 2
    (by simp [processRows, processRowsGo, processStep, processOrdinaryRow, hocUpdate,
      assignRL, assignDiff, calculateRL, calculateDiff, initState, rowsSpec, bmSpec];
        norm_num)
    rfl rfl (by norm_num) rfl

end AutoBook

namespace AutoBook

/-! ## C7 -/

/-- C7 counterexample: a CP row that is the LAST row of the sequence (no
following row at all).  The claim says removal degrades by clearing the CP
fields and blanking the chainage; the code instead returns the input
unchanged (`if (pushedPointRowIndex >= rows.length) return rows`), so the
row keeps `isCP = true` and its chainage "CP01". -/
theorem deleteChangePoint_last_row_unchanged :
    deleteChangePoint rowsCPLast 0 = rowsCPLast
    ∧ rowsCPLast.map Row.isCP = [true]
    ∧ rowsCPLast.map Row.chainage = ["CP01"]
    ∧ (deleteChangePoint rowsCPLast 0).map Row.isCP = [true] := by
  refine ⟨?_, ?_, ?_, ?_⟩ <;> simp [deleteChangePoint, rowsCPLast]

/-- C7 (amended): `deleteChangePoint` on a row with `isCP`: (a) when the
row is last (no following row), the input is returned UNCHANGED — not
degraded; (b) when a following row exists but its id lacks `-pushed`, the
CP row is cleared (bs, CP fields, blank chainage) in place, row count
unchanged, all other rows untouched; (c) when the following row is the
pushed companion, the CP row is restored with the companion's chainage,
its bs and CP fields cleared, and the companion row deleted. -/
theorem deleteChangePoint_spec (rows : List Row) (i : Nat) (cp : Row)
    (hcp0 : rows[i]? = some cp) (hcp : cp.isCP = true) :
    (i + 1 ≥ rows.length → deleteChangePoint rows i = rows)
    ∧ (∀ nxt, rows[i + 1]? = some nxt → hasSubstr nxt.id "-pushed" = false →
        (deleteChangePoint rows i).length = rows.length
        ∧ (deleteChangePoint rows i)[i]? = some ({ cp with
            bs := none, isCP := false, cpLabel := none, cpRL := none,
            cpHOC := none, chainage := "" } : Row)
        ∧ ∀ j, j ≠ i → (deleteChangePoint rows i)[j]? = rows[j]?)
    ∧ (∀ nxt, rows[i + 1]? = some nxt → hasSubstr nxt.id "-pushed" = true →
        (deleteChangePoint rows i).length + 1 = rows.length
        ∧ (deleteChangePoint rows i)[i]? = some ({ cp with
            bs := none, isCP := false, cpLabel := none, cpRL := none,
            cpHOC := none, chainage := nxt.chainage } : Row)
        ∧ (∀ j, j < i → (deleteChangePoint rows i)[j]? = rows[j]?)
        ∧ (∀ j, i < j → (deleteChangePoint rows i)[j]? = rows[j + 1]?)) := by
  have hi : i < rows.length := (List.getElem?_eq_some.mp hcp0).1
  refine ⟨?_, ?_, ?_⟩
  · intro hge
    unfold deleteChangePoint
    rw [hcp0]
    simp only [hcp, Bool.not_true, Bool.false_eq_true, if_false]
    rw [if_pos hge]
  · intro nxt hnxt hid
    have hlt : i + 1 < rows.length := (List.getElem?_eq_some.mp hnxt).1
    have hres : deleteChangePoint rows i = rows.set i ({ cp with
        bs := none, isCP := false, cpLabel := none, cpRL := none,
        cpHOC := none, chainage := "" } : Row) := by
      unfold deleteChangePoint
      rw [hcp0]
      simp only [hcp, Bool.not_true, Bool.false_eq_true, if_false]
      rw [if_neg (by omega), hnxt]
      simp only [hid, Bool.not_false, if_true]
    rw [hres]
    refine ⟨by simp, List.getElem?_set_eq_of_lt _ hi, fun j hj => ?_⟩
    exact List.getElem?_set_ne (fun he => hj he.symm)
  · intro nxt hnxt hid
    have hlt : i + 1 < rows.length := (List.getElem?_eq_some.mp hnxt).1
    have hres : deleteChangePoint rows i = (rows.set i ({ cp with
        bs := none, isCP := false, cpLabel := none, cpRL := none,
        cpHOC := none, chainage := nxt.chainage } : Row)).eraseIdx (i + 1) := by
      unfold deleteChangePoint
      rw [hcp0]
      simp only [hcp, Bool.not_true, Bool.false_eq_true, if_false]
      rw [if_neg (by omega), hnxt]
      simp only [hid, Bool.not_true, Bool.false_eq_true, if_false]
    rw [hres]
    have hslen : (rows.set i ({ cp with
        bs := none, isCP := false, cpLabel := none, cpRL := none,
        cpHOC := none, chainage := nxt.chainage } : Row)).length = rows.length := by
      simp
    refine ⟨?_, ?_, ?_, ?_⟩
    · rw [List.length_eraseIdx_add_one (by rw [hslen]; omega), hslen]
    · rw [List.getElem?_eraseIdx_of_lt _ _ _ (by omega)]
      exact List.getElem?_set_eq_of_lt _ hi
    · intro j hj
      rw [List.getElem?_eraseIdx_of_lt _ _ _ (by omega)]
      exact List.getElem?_set_ne (by omega)
    · intro j hj
      rw [List.getElem?_eraseIdx_of_ge _ _ _ (by omega)]
      exact List.getElem?_set_ne (by omega)

/-- C7 witness: the amended statement at a concrete two-row sequence, a CP
row followed by its `-pushed` companion. -/
theorem deleteChangePoint_spec_check :
    (0 + 1 ≥ rows2CP.length → deleteChangePoint rows2CP 0 = rows2CP)
    ∧ (∀ nxt, rows2CP[0 + 1]? = some nxt → hasSubstr nxt.id "-pushed" = false →
        (deleteChangePoint rows2CP 0).length = rows2CP.length
        ∧ (deleteChangePoint rows2CP 0)[0]? = some ({ cpRowEx with
            bs := none, isCP := false, cpLabel := none, cpRL := none,
            cpHOC := none, chainage := "" } : Row)
        ∧ ∀ j, j ≠ 0 → (deleteChangePoint rows2CP 0)[j]? = rows2CP[j]?)
    ∧ (∀ nxt, rows2CP[0 + 1]? = some nxt → hasSubstr nxt.id "-pushed" = true →
        (deleteChangePoint rows2CP 0).length + 1 = rows2CP.length
        ∧ (deleteChangePoint rows2CP 0)[0]? = some ({ cpRowEx with
            bs := none, isCP := false, cpLabel := none, cpRL := none,
            cpHOC := none, chainage := nxt.chainage } : Row)
        ∧ (∀ j, j < 0 → (deleteChangePoint rows2CP 0)[j]? = rows2CP[j]?)
        ∧ (∀ j, 0 < j → (deleteChangePoint rows2CP 0)[j]? = rows2CP[j + 1]?)) :=
  deleteChangePoint_spec rows2CP 0 cpRowEx rfl rfl

end AutoBook

namespace AutoBook

/-! ## C10 -/

/-- Every character of the list is a decimal digit character. -/
def AllDigits (cs : List Char) : Prop := ∀ c ∈ cs, ∃ d, d < 10 ∧ c = digitChar d

theorem digitChar_facts : ∀ d, d < 10 →
    Char.isDigit (digitChar d) = true
    ∧ isSpaceChar (digitChar d) = false
    ∧ digitChar d ≠ '-' ∧ digitChar d ≠ '+'
    ∧ digitChar d ≠ 'x' ∧ digitChar d ≠ 'X'
    ∧ (digitChar d).toNat - 48 = d := by decide

theorem natDigits_allDigits (n : Nat) : AllDigits (natDigits n) := by
  induction n using Nat.strong_induction_on with
  | _ n ih =>
    rw [natDigits]
    split
    · intro c hc
      simp only [List.mem_singleton] at hc
      exact ⟨n, by omega, hc⟩
    · intro c hc
      rcases List.mem_append.mp hc with h1 | h2
      · exact ih (n / 10) (Nat.div_lt_self (by omega) (by omega)) c h1
      · simp only [List.mem_singleton] at h2
        exact ⟨n % 10, Nat.mod_lt _ (by omega), h2⟩

theorem natDigits_ne_nil (n : Nat) : natDigits n ≠ [] := by
  rw [natDigits]
  split <;> simp

theorem decDigitsVal_cons_zero (l : List Char) : decDigitsVal ('0' :: l) = decDigitsVal l := by
  have h48 : 10 * 0 + ('0'.toNat - 48) = 0 := by decide
  simp [decDigitsVal, h48]

theorem decDigitsVal_append_digit (cs : List Char) (c : Char) :
    decDigitsVal (cs ++ [c]) = 10 * decDigitsVal cs + (c.toNat - 48) := by
  simp [decDigitsVal, List.foldl_append]

theorem decDigitsVal_natDigits (n : Nat) : decDigitsVal (natDigits n) = n := by
  induction n using Nat.strong_induction_on with
  | _ n ih =>
    rw [natDigits]
    split
    · have hd := (digitChar_facts n (by omega)).2.2.2.2.2.2
      simp [decDigitsVal, hd]
    · rw [decDigitsVal_append_digit, ih (n / 10) (Nat.div_lt_self (by omega) (by omega)),
        (digitChar_facts (n % 10) (Nat.mod_lt _ (by omega))).2.2.2.2.2.2]
      omega

theorem decDigitsVal_replicate_zero (k : Nat) (cs : List Char) :
    decDigitsVal (List.replicate k '0' ++ cs) = decDigitsVal cs := by
  induction k with
  | zero => simp
  | succ k ih => rw [List.replicate_succ, List.cons_append, decDigitsVal_cons_zero, ih]

theorem allDigits_takeWhile (cs : List Char) (h : AllDigits cs) :
    cs.takeWhile Char.isDigit = cs := by
  induction cs with
  | nil => rfl
  | cons c t ih =>
    obtain ⟨d, hd, rfl⟩ := h c (List.mem_cons_self c t)
    rw [List.takeWhile_cons, if_pos (digitChar_facts d hd).1,
      ih (fun x hx => h x (List.mem_cons_of_mem _ hx))]

theorem allDigits_dropWhile_space (cs : List Char) (h : AllDigits cs) :
    cs.dropWhile isSpaceChar = cs := by
  cases cs with
  | nil => rfl
  | cons c t =>
    obtain ⟨d, hd, rfl⟩ := h c (List.mem_cons_self c t)
    rw [List.dropWhile_cons, if_neg (by simp [(digitChar_facts d hd).2.1])]

/-- `parseInt` on a non-empty all-digit character list is the decimal value
of those digits. -/
theorem jsParseIntList_digits (cs : List Char) (hne : cs ≠ []) (h : AllDigits cs) :
    jsParseIntList cs = some ((decDigitsVal cs : ℤ)) := by
  obtain ⟨c, t, rfl⟩ := List.exists_cons_of_ne_nil hne
  obtain ⟨d, hd, rfl⟩ := h _ (List.mem_cons_self _ t)
  have f := digitChar_facts d hd
  have hd1 : ¬((digitChar d :: t).head? = some '-') := by
    simp only [List.head?_cons, Option.some_inj]
    exact fun he => f.2.2.1 he
  have hd2 : ¬((digitChar d :: t).head? = some '-' ∨ (digitChar d :: t).head? = some '+') := by
    rintro (hx | hx) <;> simp only [List.head?_cons, Option.some_inj] at hx
    · exact f.2.2.1 hx
    · exact f.2.2.2.1 hx
  have hhex : ¬((digitChar d :: t).head? = some '0'
      ∧ ((digitChar d :: t).tail.head? = some 'x'
        ∨ (digitChar d :: t).tail.head? = some 'X')) := by
    rintro ⟨-, hx⟩
    rw [List.tail_cons] at hx
    cases t with
    | nil => simp at hx
    | cons c' t' =>
      obtain ⟨d', hd', he'⟩ := h c' (List.mem_cons_of_mem _ (List.mem_cons_self _ t'))
      have f' := digitChar_facts d' hd'
      rcases hx with hx | hx <;> simp only [List.head?_cons, Option.some_inj] at hx <;>
        rw [hx] at he'
      · exact f'.2.2.2.2.1 he'.symm
      · exact f'.2.2.2.2.2.1 he'.symm
  simp only [jsParseIntList]
  rw [allDigits_dropWhile_space _ h]
  rw [if_neg hd1, if_neg hd2, if_neg hhex]
  rw [allDigits_takeWhile _ h]
  simp

theorem splitOnChar_no_sep (sep : Char) (l : List Char) (h : sep ∉ l) :
    splitOnChar sep l = [l] := by
  induction l with
  | nil => rfl
  | cons c t ih =>
    have hc : ¬(c = sep) := fun he => h (he ▸ List.mem_cons_self c t)
    rw [splitOnChar, if_neg hc, ih (fun hm => h (List.mem_cons_of_mem _ hm))]

theorem splitOnChar_mid (sep : Char) (a b : List Char) (ha : sep ∉ a) (hb : sep ∉ b) :
    splitOnChar sep (a ++ sep :: b) = [a, b] := by
  induction a with
  | nil =>
    rw [List.nil_append, splitOnChar, if_pos rfl, splitOnChar_no_sep sep b hb]
  | cons c t ih =>
    have hc : ¬(c = sep) := fun he => ha (he ▸ List.mem_cons_self c t)
    rw [List.cons_append, splitOnChar, if_neg hc,
      ih (fun hm => ha (List.mem_cons_of_mem _ hm))]

theorem padStart_mk_toList (ds : List Char) (k : Nat) (c0 : Char) :
    (padStart (String.mk ds) k c0).toList = List.replicate (k - ds.length) c0 ++ ds := by
  have hsl : (String.mk ds).length = ds.length := rfl
  unfold padStart
  split
  · rename_i hle
    rw [hsl] at hle
    have hz : k - ds.length = 0 := by omega
    rw [hz]
    rfl
  · rfl

theorem allDigits_append (a b : List Char) (ha : AllDigits a) (hb : AllDigits b) :
    AllDigits (a ++ b) := by
  intro c hc
  rcases List.mem_append.mp hc with h | h
  · exact ha c h
  · exact hb c h

theorem allDigits_replicate_zero (k : Nat) : AllDigits (List.replicate k '0') := by
  intro c hc
  rw [List.eq_of_mem_replicate hc]
  exact ⟨0, by omega, by decide⟩

theorem allDigits_no_plus (cs : List Char) (h : AllDigits cs) : '+' ∉ cs := by
  intro hm
  obtain ⟨d, hd, he⟩ := h _ hm
  exact (digitChar_facts d hd).2.2.2.1 he.symm

/-- C10: the chainage round-trip law and totality of parsing.  For every
`"<km>+<mmm>"` string with the kilometres part written canonically and a
three-digit zero-padded metres part below 1000, `parseChainage` reads back
exactly `km * 1000 + m` and `formatChainage` re-renders the identical
string; and a string with no `'+'` at all (a missing part) parses to 0
rather than failing. -/
theorem parseChainage_roundtrip (km m : Nat) (hm : m < 1000) :
    parseChainage (natToString km ++ "+" ++ padStart (natToString m) 3 '0')
      = km * 1000 + m
    ∧ formatChainage (parseChainage
        (natToString km ++ "+" ++ padStart (natToString m) 3 '0'))
      = natToString km ++ "+" ++ padStart (natToString m) 3 '0'
    ∧ (∀ s : String, '+' ∉ s.toList → parseChainage s = 0) := by
  have hpadded : (padStart (natToString m) 3 '0').toList
      = List.replicate (3 - (natDigits m).length) '0' ++ natDigits m :=
    padStart_mk_toList (natDigits m) 3 '0'
  have hptoList : (natToString km ++ "+" ++ padStart (natToString m) 3 '0').toList
      = natDigits km ++ '+' :: (List.replicate (3 - (natDigits m).length) '0'
          ++ natDigits m) := by
    show (natToString km).toList ++ "+".toList ++ (padStart (natToString m) 3 '0').toList
      = _
    rw [hpadded]
    simp [natToString]
  have hsplit : splitOnChar '+' (natToString km ++ "+"
      ++ padStart (natToString m) 3 '0').toList
      = [natDigits km, List.replicate (3 - (natDigits m).length) '0' ++ natDigits m] := by
    rw [hptoList]
    exact splitOnChar_mid '+' _ _
      (allDigits_no_plus _ (natDigits_allDigits km))
      (allDigits_no_plus _ (allDigits_append _ _ (allDigits_replicate_zero _)
        (natDigits_allDigits m)))
  have hparse : parseChainage (natToString km ++ "+" ++ padStart (natToString m) 3 '0')
      = km * 1000 + m := by
    simp only [parseChainage, hsplit]
    rw [jsParseIntList_digits _ (natDigits_ne_nil km) (natDigits_allDigits km)]
    rw [jsParseIntList_digits _ (by simp [natDigits_ne_nil m])
      (allDigits_append _ _ (allDigits_replicate_zero _) (natDigits_allDigits m))]
    rw [decDigitsVal_natDigits, decDigitsVal_replicate_zero, decDigitsVal_natDigits]
    simp
  refine ⟨hparse, ?_, ?_⟩
  · rw [hparse]
    have h0 : (0 : ℤ) ≤ ((km : ℤ) * 1000 + (m : ℤ)) := by omega
    have hfd : Int.fdiv ((km : ℤ) * 1000 + (m : ℤ)) 1000 = (km : ℤ) := by
      rw [Int.fdiv_eq_ediv _ (by omega)]
      omega
    have htm : Int.tmod ((km : ℤ) * 1000 + (m : ℤ)) 1000 = (m : ℤ) := by
      rw [Int.tmod_eq_emod h0 (by omega)]
      omega
    have hik : intToString (km : ℤ) = natToString km := by
      unfold intToString
      rw [if_neg (by omega)]
      simp
    have him : intToString (m : ℤ) = natToString m := by
      unfold intToString
      rw [if_neg (by omega)]
      simp
    simp only [formatChainage]
    rw [hfd, htm, hik, him]
  · intro s hs
    simp only [parseChainage, splitOnChar_no_sep '+' s.toList hs]

/-- C10 witness: the round trip at the concrete chainage "2+060"
(2060 distance units). -/
theorem parseChainage_roundtrip_check :
    ((natToString 2 ++ "+" ++ padStart (natToString 60) 3 '0') = "2+060")
    ∧ (parseChainage (natToString 2 ++ "+" ++ padStart (natToString 60) 3 '0')
        = 2 * 1000 + 60
      ∧ formatChainage (parseChainage
          (natToString 2 ++ "+" ++ padStart (natToString 60) 3 '0'))
        = natToString 2 ++ "+" ++ padStart (natToString 60) 3 '0'
      ∧ (∀ s : String, '+' ∉ s.toList → parseChainage s = 0)) :=
  ⟨by simp [natToString, natDigits, digitChar, padStart]; decide,
    parseChainage_roundtrip 2 60 (by decide)⟩

end AutoBook

namespace AutoBook

/-! ## C9 -/

/-- C9 counterexample: with fromChainage "0+000", toChainage "0+000" and
interval 0 (any non-positive interval with fromM ≤ toM behaves alike), every
iterate of the loop variable satisfies the loop guard `m <= toM`, so the
`for (let m = fromM; m <= toM; m += interval)` loop of
`generateChainagePoints` never exits: the function does not terminate for
every interval, refuting the claim as stated. -/
theorem generateChainagePoints_loop_diverges :
    loopDiverges (parseChainage "0+000") (parseChainage "0+000") 0 := by
  have h : parseChainage "0+000" = 0 := by decide
  intro k
  rw [h]
  simp [loopIter]

theorem loopGo_getQ (toM interval : ℤ) (hpos : 0 < interval) (m : ℤ) (k : Nat) :
    (loopGo toM interval hpos m)[k]?
      = if m + k * interval ≤ toM then some (m + k * interval) else none := by
  induction k generalizing m with
  | zero =>
    rw [loopGo]
    split
    · rename_i hle
      rw [if_pos (by omega)]
      simp
    · rename_i hgt
      rw [if_neg (by omega)]
      rfl
  | succ k ih =>
    rw [loopGo]
    split
    · rename_i hle
      have harith : m + interval + (k : ℤ) * interval = m + ((k : ℕ) + 1 : ℕ) * interval := by
        push_cast
        ring
      simp only [List.getElem?_cons_succ, ih (m + interval), harith]
    · rename_i hgt
      have hnn : 0 ≤ ((k : ℤ) + 1) * interval := by positivity
      rw [if_neg (by push_cast at hnn ⊢; omega)]
      rfl

theorem flatMap_single {α β : Type} (l : List α) (g : α → β) :
    l.flatMap (fun x => [g x]) = l.map g := by
  induction l with
  | nil => rfl
  | cons x t ih => simp [ih]

/-- C9 (amended): for every POSITIVE interval the generation loop
terminates (some iterate fails the guard `m <= toM`) and emits stations
exactly at fromM, fromM + interval, fromM + 2·interval, ... up to toM
inclusive — a final boundary off the grid is skipped, never adjusted; with
one point per station the emitted chainage labels are exactly the formatted
station distances.  For interval ≤ 0 with fromM ≤ toM the source loop
diverges, see the counterexample. -/
theorem generateChainagePoints_spec (fromC toC : String) (interval : ℤ)
    (hpos : 0 < interval) :
    (∀ k : Nat, (stationList (parseChainage fromC) (parseChainage toC) interval)[k]?
        = if parseChainage fromC + k * interval ≤ parseChainage toC
          then some (parseChainage fromC + k * interval) else none)
    ∧ (∃ k : Nat, ¬ (loopIter (parseChainage fromC) interval k ≤ parseChainage toC))
    ∧ (generateChainagePoints fromC toC 1 interval none).map ChainagePoint.chainage
        = (stationList (parseChainage fromC) (parseChainage toC) interval).map
            formatChainage := by
  refine ⟨?_, ?_, ?_⟩
  · intro k
    simp only [stationList, dif_pos hpos]
    exact loopGo_getQ _ _ hpos _ k
  · refine ⟨((parseChainage toC - parseChainage fromC).toNat + 1), ?_⟩
    unfold loopIter
    have hk : (((parseChainage toC - parseChainage fromC).toNat + 1 : ℕ) : ℤ)
        ≥ parseChainage toC - parseChainage fromC + 1 := by
      push_cast
      omega
    have h1 : (((parseChainage toC - parseChainage fromC).toNat + 1 : ℕ) : ℤ) * 1
        ≤ (((parseChainage toC - parseChainage fromC).toNat + 1 : ℕ) : ℤ) * interval := by
      apply mul_le_mul_of_nonneg_left (by omega) (by positivity)
    omega
  · simp [generateChainagePoints, defaultPoints, flatMap_single, List.map_map]

/-- The station distances of the example range "0+000"–"0+040" at
interval 20, evaluated. -/
theorem stationList_ex : stationList (parseChainage "0+000") (parseChainage "0+040") 20
    = [0, 20, 40] := by
  have h1 : parseChainage "0+000" = 0 := by decide
  have h2 : parseChainage "0+040" = 40 := by decide
  rw [h1, h2]
  simp only [stationList]
  rw [dif_pos (by norm_num)]
  rw [loopGo]
  norm_num
  rw [loopGo]
  norm_num
  rw [loopGo]
  norm_num
  rw [loopGo]
  norm_num

theorem fmt_ex : formatChainage 0 = "0+000" ∧ formatChainage 20 = "0+020"
    ∧ formatChainage 40 = "0+040" := by
  have hf0 : Int.fdiv 0 1000 = 0 := by decide
  have hf20 : Int.fdiv 20 1000 = 0 := by decide
  have hf40 : Int.fdiv 40 1000 = 0 := by decide
  have ht0 : Int.tmod 0 1000 = 0 := by decide
  have ht20 : Int.tmod 20 1000 = 20 := by decide
  have ht40 : Int.tmod 40 1000 = 40 := by decide
  refine ⟨?_, ?_, ?_⟩ <;>
    simp [formatChainage, hf0, hf20, hf40, ht0, ht20, ht40, intToString, natToString,
      natDigits, digitChar, padStart, String.length]

/-- C9 witness: the amended statement at the specification's example
(from "0+000" to "0+040", interval 20), together with the evaluated
example for pointsPerStation = 3: exactly 9 points, three per station, at
offsets −3.5 / 0 / 3.5, three stations 0+000 / 0+020 / 0+040. -/
theorem generateChainagePoints_spec_check :
    ((∀ k : Nat, (stationList (parseChainage "0+000") (parseChainage "0+040") 20)[k]?
        = if parseChainage "0+000" + k * 20 ≤ parseChainage "0+040"
          then some (parseChainage "0+000" + k * 20) else none)
    ∧ (∃ k : Nat, ¬ (loopIter (parseChainage "0+000") 20 k ≤ parseChainage "0+040"))
    ∧ (generateChainagePoints "0+000" "0+040" 1 20 none).map ChainagePoint.chainage
        = (stationList (parseChainage "0+000") (parseChainage "0+040") 20).map
            formatChainage)
    ∧ (generateChainagePoints "0+000" "0+040" 3 20 none).length = 9
    ∧ (generateChainagePoints "0+000" "0+040" 3 20 none).map ChainagePoint.offset
        = [-(3.5 : ℚ), 0, 3.5, -(3.5 : ℚ), 0, 3.5, -(3.5 : ℚ), 0, 3.5]
    ∧ (generateChainagePoints "0+000" "0+040" 3 20 none).map ChainagePoint.chainage
        = ["0+000", "0+000", "0+000", "0+020", "0+020", "0+020",
           "0+040", "0+040", "0+040"] := by
  refine ⟨generateChainagePoints_spec "0+000" "0+040" 20 (by norm_num), ?_, ?_, ?_⟩
  · simp [generateChainagePoints, stationList_ex, defaultPoints]
  · simp [generateChainagePoints, stationList_ex, defaultPoints]
  · simp [generateChainagePoints, stationList_ex, defaultPoints, fmt_ex.1,
      fmt_ex.2.1, fmt_ex.2.2]

end AutoBook

namespace AutoBook

/-! ## C8 -/

theorem countNonCP_cons (r : Row) (l : List Row) :
    countNonCP (r :: l) = if r.isCP then countNonCP l else countNonCP l + 1 := by
  by_cases hcp : r.isCP <;> simp [countNonCP, List.filter_cons, hcp]

theorem relabelRows_length : ∀ (mid pts : List Row),
    (relabelRows mid pts).1.length = mid.length
  | [], pts => rfl
  | r :: rs, pts => by
    by_cases hcp : r.isCP
    · simp only [relabelRows, hcp, if_true, List.length_cons, relabelRows_length rs pts]
    · cases pts with
      | nil =>
        simp only [relabelRows, hcp, Bool.false_eq_true, if_false, List.length_cons,
          relabelRows_length rs []]
      | cons p ptl =>
        simp only [relabelRows, hcp, Bool.false_eq_true, if_false, List.length_cons,
          relabelRows_length rs ptl]

theorem relabelRows_snd : ∀ (mid pts : List Row),
    (relabelRows mid pts).2 = pts.drop (countNonCP mid)
  | [], pts => by simp [relabelRows, countNonCP]
  | r :: rs, pts => by
    by_cases hcp : r.isCP
    · simp only [relabelRows, hcp, if_true, relabelRows_snd rs pts, countNonCP_cons]
    · cases pts with
      | nil =>
        simp only [relabelRows, hcp, Bool.false_eq_true, if_false,
          relabelRows_snd rs [], countNonCP_cons, List.drop_nil]
      | cons p ptl =>
        simp only [relabelRows, hcp, Bool.false_eq_true, if_false,
          relabelRows_snd rs ptl, countNonCP_cons, List.drop_succ_cons]

theorem relabelRows_closing : ∀ (mid pts : List Row),
    (∀ r ∈ mid, r.isClosingBM = false) →
    ∀ r ∈ (relabelRows mid pts).1, r.isClosingBM = false
  | [], pts => by simp [relabelRows]
  | r :: rs, pts => by
    intro hall x hx
    by_cases hcp : r.isCP
    · simp only [relabelRows, hcp, if_true, List.mem_cons] at hx
      rcases hx with rfl | hx
      · exact hall x (List.mem_cons_self _ _)
      · exact relabelRows_closing rs pts (fun y hy => hall y (List.mem_cons_of_mem _ hy)) x hx
    · cases pts with
      | nil =>
        simp only [relabelRows, hcp, Bool.false_eq_true, if_false, List.mem_cons] at hx
        rcases hx with rfl | hx
        · exact hall x (List.mem_cons_self _ _)
        · exact relabelRows_closing rs [] (fun y hy => hall y (List.mem_cons_of_mem _ hy)) x hx
      | cons p ptl =>
        simp only [relabelRows, hcp, Bool.false_eq_true, if_false, List.mem_cons] at hx
        rcases hx with rfl | hx
        · exact hall r (List.mem_cons_self _ _)
        · exact relabelRows_closing rs ptl (fun y hy => hall y (List.mem_cons_of_mem _ hy)) x hx

theorem relabelRows_getQ : ∀ (mid pts : List Row) (j : Nat),
    (relabelRows mid pts).1[j]?
      = (mid[j]?).map (fun r =>
          if r.isCP then r
          else
            match pts[countNonCP (mid.take j)]? with
            | some p => { r with chainage := p.chainage, chainageType := p.chainageType }
            | none => r)
  | [], pts, j => by simp [relabelRows]
  | r :: rs, pts, j => by
    by_cases hcp : r.isCP
    · cases j with
      | zero => simp [relabelRows, hcp]
      | succ j =>
        simp only [relabelRows, hcp, if_true, List.getElem?_cons_succ, List.take_succ_cons]
        rw [relabelRows_getQ rs pts j,
          show countNonCP (r :: rs.take j) = countNonCP (rs.take j) from by
            rw [countNonCP_cons, if_pos hcp]]
    · cases pts with
      | nil =>
        cases j with
        | zero => simp [relabelRows, hcp]
        | succ j =>
          simp only [relabelRows, hcp, Bool.false_eq_true, if_false,
            List.getElem?_cons_succ, List.take_succ_cons]
          rw [relabelRows_getQ rs [] j]
          simp
      | cons p ptl =>
        cases j with
        | zero => simp [relabelRows, hcp, countNonCP]
        | succ j =>
          simp only [relabelRows, hcp, Bool.false_eq_true, if_false,
            List.getElem?_cons_succ, List.take_succ_cons]
          rw [relabelRows_getQ rs ptl j,
            show countNonCP (r :: rs.take j) = countNonCP (rs.take j) + 1 from by
              rw [countNonCP_cons, if_neg hcp]]
          simp

end AutoBook

namespace AutoBook

/-- C8: applying a new non-empty point pattern preserves every
already-entered reading.  With `mid` the non-closing middle rows, `pts` the
freshly generated station rows and `out` the resulting row sequence:
row 0 is kept untouched; every row of `mid` reappears at its position with
`bs`/`is`/`fs`/`d` unchanged — a CP row entirely unchanged, an ordinary row
relabelled from the next unconsumed generated station when one remains and
kept verbatim otherwise (never deleted); surplus generated stations are
appended as blank rows; and the closing-benchmark row, when present, is
reattached as the last row. -/
theorem handleApplyPattern_preserves (project : Project) (patternText : String)
    (now : Nat) (r0 : Row) (rest mid pts out : List Row)
    (hrows : project.rows = r0 :: rest)
    (hr0 : r0.isClosingBM = false)
    (hpat : parsePatternText patternText ≠ [])
    (hmid : mid = rest.filter (fun r => !r.isClosingBM))
    (hpts : pts = (generateTableRows
        { project with pointPattern := some (parsePatternText patternText) } now).drop 1)
    (hout : out = (handleApplyPattern project patternText now).rows) :
    out[0]? = some r0
    ∧ (∀ j r, mid[j]? = some r → ∃ r', out[j + 1]? = some r'
        ∧ r'.bs = r.bs ∧ r'.is = r.is ∧ r'.fs = r.fs ∧ r'.d = r.d
        ∧ (r.isCP = true → r' = r)
        ∧ (r.isCP = false →
            (∀ p, pts[countNonCP (mid.take j)]? = some p →
              r' = { r with chainage := p.chainage, chainageType := p.chainageType })
            ∧ (pts[countNonCP (mid.take j)]? = none → r' = r)))
    ∧ (∀ k p, (pts.drop (countNonCP mid))[k]? = some p →
        out[1 + mid.length + k]? = some (blankRowOf p)
        ∧ (blankRowOf p).chainage = p.chainage
        ∧ (blankRowOf p).chainageType = p.chainageType
        ∧ (blankRowOf p).bs = none ∧ (blankRowOf p).is = none ∧ (blankRowOf p).fs = none
        ∧ (blankRowOf p).hoc = none ∧ (blankRowOf p).rl = none
        ∧ (blankRowOf p).d = none ∧ (blankRowOf p).diff = none
        ∧ (blankRowOf p).isCP = false ∧ (blankRowOf p).isClosingBM = false)
    ∧ (∀ c, project.rows.find? (fun r => r.isClosingBM) = some c →
        out.getLast? = some c
        ∧ out.length = 1 + mid.length + (pts.length - countNonCP mid) + 1)
    ∧ (project.rows.find? (fun r => r.isClosingBM) = none →
        out.length = 1 + mid.length + (pts.length - countNonCP mid)) := by
  have hne0 : ¬ ((parsePatternText patternText).length = 0) := by
    simpa [List.length_eq_zero] using hpat
  have hfind0 : (r0 :: rest).find? (fun r => r.isClosingBM) = rest.find? (fun r => r.isClosingBM) :=
    List.find?_cons_of_neg _ (by simp [hr0])
  simp only [handleApplyPattern, if_neg hne0] at hout
  rw [hrows] at hout
  simp only [List.getElem?_cons_zero, Option.getD_some, List.drop_one, List.tail_cons,
    hfind0] at hout
  rw [hrows] at hpts
  rw [List.drop_one] at hpts
  rw [← hpts, ← hmid] at hout
  -- the core sequence, common to both closing cases
  have hcore0 : (r0 :: ((relabelRows mid pts).1 ++ (relabelRows mid pts).2.map blankRowOf))[0]?
      = some r0 := by simp
  have hcorelen : (r0 :: ((relabelRows mid pts).1 ++ (relabelRows mid pts).2.map blankRowOf)).length
      = 1 + mid.length + (pts.length - countNonCP mid) := by
    simp only [List.length_cons, List.length_append, List.length_map,
      relabelRows_length, relabelRows_snd, List.length_drop]
    omega
  have hcoremid : ∀ j r, mid[j]? = some r →
      (r0 :: ((relabelRows mid pts).1 ++ (relabelRows mid pts).2.map blankRowOf))[j + 1]?
        = some (if r.isCP then r
          else
            match pts[countNonCP (mid.take j)]? with
            | some p => { r with chainage := p.chainage, chainageType := p.chainageType }
            | none => r) := by
    intro j r hj
    have hjlt : j < mid.length := (List.getElem?_eq_some.mp hj).1
    rw [List.getElem?_cons_succ,
      List.getElem?_append_left (by rw [relabelRows_length]; omega),
      relabelRows_getQ, hj]
    rfl
  have hcoreapp : ∀ k p, (pts.drop (countNonCP mid))[k]? = some p →
      (r0 :: ((relabelRows mid pts).1 ++ (relabelRows mid pts).2.map blankRowOf))[1 + mid.length + k]?
        = some (blankRowOf p) := by
    intro k p hk
    have harith : 1 + mid.length + k = (mid.length + k) + 1 := by omega
    rw [harith, List.getElem?_cons_succ,
      List.getElem?_append_right (by rw [relabelRows_length]; omega)]
    rw [relabelRows_length]
    have harith2 : mid.length + k - mid.length = k := by omega
    rw [harith2, List.getElem?_map, relabelRows_snd, hk]
    rfl
  have hmidall : ∀ r ∈ mid, r.isClosingBM = false := by
    intro r hr
    rw [hmid] at hr
    have := (List.mem_filter.mp hr).2
    simpa using this
  have hfields : ∀ (j : Nat) (r : Row), r.isCP = true ∨ r.isCP = false →
      ∀ r', r' = (if r.isCP then r
          else
            match pts[countNonCP (mid.take j)]? with
            | some p => { r with chainage := p.chainage, chainageType := p.chainageType }
            | none => r) →
      r'.bs = r.bs ∧ r'.is = r.is ∧ r'.fs = r.fs ∧ r'.d = r.d
      ∧ (r.isCP = true → r' = r)
      ∧ (r.isCP = false →
          (∀ p, pts[countNonCP (mid.take j)]? = some p →
            r' = { r with chainage := p.chainage, chainageType := p.chainageType })
          ∧ (pts[countNonCP (mid.take j)]? = none → r' = r)) := by
    intro j r _ r' hr'
    subst hr'
    by_cases hcp : r.isCP
    · simp [hcp]
    · simp only [hcp, Bool.false_eq_true, if_false]
      cases hp : pts[countNonCP (mid.take j)]? with
      | none => simp [hp, hcp]
      | some p => simp [hp, hcp]
  rcases hfindr : rest.find? (fun r => r.isClosingBM) with _ | c
  all_goals rw [hfindr] at hout
  all_goals dsimp only [] at hout
  -- no closing row: out is the core sequence
  · refine ⟨?_, ?_, ?_, ?_, ?_⟩
    · rw [hout]
      exact hcore0
    · intro j r hj
      obtain ⟨h1, h2, h3, h4, h5, h6⟩ :=
        hfields j r (by by_cases hcp : r.isCP <;> simp [hcp]) _ rfl
      exact ⟨_, by rw [hout]; exact hcoremid j r hj, h1, h2, h3, h4, h5, h6⟩
    · intro k p hk
      exact ⟨by rw [hout]; exact hcoreapp k p hk, rfl, rfl, rfl, rfl, rfl, rfl, rfl, rfl,
        rfl, rfl, rfl⟩
    · intro c hc
      rw [hrows, hfind0, hfindr] at hc
      cases hc
    · intro _
      rw [hout]
      exact hcorelen
  -- a closing row c: out is the core sequence, filtered (a no-op), with c appended
  · have hfilter : (r0 :: ((relabelRows mid pts).1
        ++ (relabelRows mid pts).2.map blankRowOf)).filter (fun r => !r.isClosingBM)
        = r0 :: ((relabelRows mid pts).1 ++ (relabelRows mid pts).2.map blankRowOf) := by
      apply List.filter_eq_self.mpr
      intro x hx
      rcases List.mem_cons.mp hx with rfl | hx
      · simp [hr0]
      · rcases List.mem_append.mp hx with hx | hx
        · simp [relabelRows_closing mid pts hmidall x hx]
        · obtain ⟨p, -, rfl⟩ := List.mem_map.mp hx
          rfl
    have hout2 : out = (r0 :: ((relabelRows mid pts).1
        ++ (relabelRows mid pts).2.map blankRowOf)) ++ [c] := by
      rw [hout]
      exact congrArg (fun l => l ++ [c]) hfilter
    have hlenout : out.length = 1 + mid.length + (pts.length - countNonCP mid) + 1 := by
      rw [hout2, List.length_append, hcorelen]
      rfl
    refine ⟨?_, ?_, ?_, ?_, ?_⟩
    · rw [hout2, List.getElem?_append_left (by rw [hcorelen]; omega)]
      exact hcore0
    · intro j r hj
      have hjlt : j < mid.length := (List.getElem?_eq_some.mp hj).1
      have hget : out[j + 1]? = some (if r.isCP then r
          else
            match pts[countNonCP (mid.take j)]? with
            | some p => { r with chainage := p.chainage, chainageType := p.chainageType }
            | none => r) := by
        rw [hout2, List.getElem?_append_left (by rw [hcorelen]; omega)]
        exact hcoremid j r hj
      obtain ⟨h1, h2, h3, h4, h5, h6⟩ :=
        hfields j r (by by_cases hcp : r.isCP <;> simp [hcp]) _ rfl
      exact ⟨_, hget, h1, h2, h3, h4, h5, h6⟩
    · intro k p hk
      have hklt : k < (pts.drop (countNonCP mid)).length := (List.getElem?_eq_some.mp hk).1
      rw [List.length_drop] at hklt
      refine ⟨?_, rfl, rfl, rfl, rfl, rfl, rfl, rfl, rfl, rfl, rfl, rfl⟩
      rw [hout2, List.getElem?_append_left (by rw [hcorelen]; omega)]
      exact hcoreapp k p hk
    · intro c' hc
      rw [hrows, hfind0, hfindr] at hc
      cases hc
      exact ⟨by rw [hout2]; exact List.getLast?_concat _, hlenout⟩
    · intro hc
      rw [hrows, hfind0, hfindr] at hc
      cases hc

end AutoBook

namespace AutoBook

/-- C8 witness: the pattern-preservation statement applied to the example
project (benchmark row, ordinary row with readings, CP row, second
ordinary row, closing row) with the pattern text "CL". -/
theorem handleApplyPattern_preserves_check :
    ((handleApplyPattern projEx "CL" 1).rows)[0]?
        = some ({ id := "e0", chainage := "", bs := some 1 } : Row)
    ∧ (∀ j r, (projEx.rows.tail.filter (fun r => !r.isClosingBM))[j]? = some r →
        ∃ r', ((handleApplyPattern projEx "CL" 1).rows)[j + 1]? = some r'
        ∧ r'.bs = r.bs ∧ r'.is = r.is ∧ r'.fs = r.fs ∧ r'.d = r.d
        ∧ (r.isCP = true → r' = r)
        ∧ (r.isCP = false →
            (∀ p, ((generateTableRows
                { projEx with pointPattern := some (parsePatternText "CL") } 1).drop
                  1)[countNonCP ((projEx.rows.tail.filter (fun r => !r.isClosingBM)).take j)]?
                = some p →
              r' = { r with chainage := p.chainage, chainageType := p.chainageType })
            ∧ (((generateTableRows
                { projEx with pointPattern := some (parsePatternText "CL") } 1).drop
                  1)[countNonCP ((projEx.rows.tail.filter (fun r => !r.isClosingBM)).take j)]?
                = none → r' = r)))
    ∧ (∀ k p, (((generateTableRows
          { projEx with pointPattern := some (parsePatternText "CL") } 1).drop 1).drop
            (countNonCP (projEx.rows.tail.filter (fun r => !r.isClosingBM))))[k]? = some p →
        ((handleApplyPattern projEx "CL" 1).rows)[1
            + (projEx.rows.tail.filter (fun r => !r.isClosingBM)).length + k]?
          = some (blankRowOf p)
        ∧ (blankRowOf p).chainage = p.chainage
        ∧ (blankRowOf p).chainageType = p.chainageType
        ∧ (blankRowOf p).bs = none ∧ (blankRowOf p).is = none ∧ (blankRowOf p).fs = none
        ∧ (blankRowOf p).hoc = none ∧ (blankRowOf p).rl = none
        ∧ (blankRowOf p).d = none ∧ (blankRowOf p).diff = none
        ∧ (blankRowOf p).isCP = false ∧ (blankRowOf p).isClosingBM = false)
    ∧ (∀ c, projEx.rows.find? (fun r => r.isClosingBM) = some c →
        ((handleApplyPattern projEx "CL" 1).rows).getLast? = some c
        ∧ ((handleApplyPattern projEx "CL" 1).rows).length
          = 1 + (projEx.rows.tail.filter (fun r => !r.isClosingBM)).length
            + (((generateTableRows
                { projEx with pointPattern := some (parsePatternText "CL") } 1).drop 1).length
              - countNonCP (projEx.rows.tail.filter (fun r => !r.isClosingBM))) + 1)
    ∧ (projEx.rows.find? (fun r => r.isClosingBM) = none →
        ((handleApplyPattern projEx "CL" 1).rows).length
          = 1 + (projEx.rows.tail.filter (fun r => !r.isClosingBM)).length
            + (((generateTableRows
                { projEx with pointPattern := some (parsePatternText "CL") } 1).drop 1).length
              - countNonCP (projEx.rows.tail.filter (fun r => !r.isClosingBM)))) :=
  handleApplyPattern_preserves projEx "CL" 1
    ({ id := "e0", chainage := "", bs := some 1 } : Row)
    projEx.rows.tail
    (projEx.rows.tail.filter (fun r => !r.isClosingBM))
    ((generateTableRows { projEx with pointPattern := some (parsePatternText "CL") } 1).drop 1)
    ((handleApplyPattern projEx "CL" 1).rows)
    rfl rfl (by decide) rfl rfl rfl

end AutoBook
